import Mathlib

/-!
Verification development for the peer-to-peer networking core of
`concordium-node`.  The Rust sources under `src/concordium-node/src` are
shallowly embedded below: machine integers become `Nat` (with explicit
bounds where overflow matters), byte buffers become `List Nat`, fallible
operations return `Option`/`Except`, and the non-blocking socket is an
explicit list of read/write events.  Each definition names the Rust item
it embeds.
-/

namespace CNode

/-- Peer type from `common` (`PeerType` in the source): a peer is either a
regular node or a bootstrapper. -/
inductive PeerType where
  | Node
  | Bootstrapper
deriving DecidableEq, Repr

/-- Embedding of the admission-control capacity check at the top of
`TlsServer::accept` (`src/p2p/tls_server.rs` lines 251-259): when the local
peer type is `Node`, the code bails with `fails::MaxmimumAmountOfPeers`
whenever `current_peer_count <= self.max_peers`.  Returns `true` when the
attempt is rejected with the maximum-peers error. -/
def accept_capacity_rejected (self_peer_type : PeerType) (current_peer_count max_peers : Nat) :
    Bool :=
  self_peer_type == PeerType.Node && decide (current_peer_count ≤ max_peers)

/-- Embedding of the identical check in `TlsServer::connect`
(`src/p2p/tls_server.rs` lines 303-311); there the guard is on the remote
peer type argument `peer_type`. -/
def connect_capacity_rejected (peer_type : PeerType) (current_peer_count max_peers : Nat) :
    Bool :=
  peer_type == PeerType.Node && decide (current_peer_count ≤ max_peers)

/-- C1: the capacity check in `TlsServer::accept` and `TlsServer::connect` is
inverted with respect to the claim.  With `max_peers = 10` and a current
count of `0` (not exceeding the cap) the attempt is rejected with the
maximum-peers error, while with a count of `11` (exceeding the cap) it is
accepted, for both accept and connect; so rejection happens exactly when the
count does **not** exceed `max_peers`. -/
theorem c1_capacity_check_inverted :
    accept_capacity_rejected PeerType.Node 0 10 = true ∧ ¬ (0 > 10) ∧
    accept_capacity_rejected PeerType.Node 11 10 = false ∧ 11 > 10 ∧
    connect_capacity_rejected PeerType.Node 0 10 = true ∧
    connect_capacity_rejected PeerType.Node 11 10 = false := by decide

/-- Connection type from `common` (`ConnectionType` in the source), used by
`ConnectionPrivate` and `TlsServerPrivate`. -/
inductive ConnectionType where
  | Node
  | Bootstrapper
deriving DecidableEq, Repr

/-- Node mode.  Modelled from the spec: the source enum lives in the missing
`connection/mod.rs`; the embedded code only ever compares a mode against
`BootstrapperMode`, so one non-bootstrapper variant suffices. -/
inductive P2PNodeMode where
  | NormalMode
  | BootstrapperMode
deriving DecidableEq, Repr

/-- Embedding of `ConnectionPrivate`
(`src/connection/connection_private.rs`).  Only the plain-data fields are
kept; the session handles, channels and bucket references do not bear on the
claims. -/
structure ConnectionPrivate where
  connection_type : ConnectionType
  mode : P2PNodeMode
  last_seen : Nat
  failed_pkts : Nat
  sent_handshake : Nat
  sent_ping : Nat
  last_latency_measured : Nat
deriving DecidableEq, Repr

/-- Embedding of `ConnectionPrivate::update_last_seen`
(`src/connection/connection_private.rs` lines 94-100): the current stamp is
stored only when the mode differs from `BootstrapperMode`.  The current time
`now` stands for `get_current_stamp()`. -/
def update_last_seen (cp : ConnectionPrivate) (now : Nat) : ConnectionPrivate :=
  if cp.mode ≠ P2PNodeMode.BootstrapperMode then { cp with last_seen := now } else cp

/-- C9 counterexample: in `BootstrapperMode`, `update_last_seen` does not
store the current timestamp — with `last_seen = 0` and current time `5` the
field remains `0`. -/
theorem c9_update_last_seen_counterexample :
    (update_last_seen
        { connection_type := ConnectionType.Node, mode := P2PNodeMode.BootstrapperMode,
          last_seen := 0, failed_pkts := 0, sent_handshake := 0, sent_ping := 0,
          last_latency_measured := 0 } 5).last_seen ≠ 5 := by decide

/-- C9 (amended): `update_last_seen` stores the current timestamp exactly
when the node mode is not `BootstrapperMode`; in `BootstrapperMode` it
leaves `last_seen` unchanged. -/
theorem c9_update_last_seen_amended (cp : ConnectionPrivate) (now : Nat) :
    (update_last_seen cp now).last_seen =
      if cp.mode = P2PNodeMode.BootstrapperMode then cp.last_seen else now := by
  by_cases h : cp.mode = P2PNodeMode.BootstrapperMode <;> simp [update_last_seen, h]

/-- Embedding of `TlsServerPrivate::remove_network`
(`src/p2p/tls_server_private.rs` lines 74-81): the network set is updated by
`retain(|x| *x == network_id)`, i.e. it keeps exactly the elements equal to
`network_id`.  A `NetworkId` (u16) is embedded as `Nat`. -/
def remove_network (networks : Finset Nat) (network_id : Nat) : Finset Nat :=
  networks.filter (fun x => x = network_id)

/-- C10: `remove_network n` leaves the network set equal to the intersection
of the previous set with `{n}`: every other id is removed and `n` is kept if
present. -/
theorem c10_remove_network_keeps_only_target (S : Finset Nat) (n : Nat) :
    remove_network S n = S ∩ {n} := by
  ext m
  simp [remove_network, Finset.mem_filter, Finset.mem_inter, Finset.mem_singleton]

/-! ### Byte-level helpers (big-endian integers, bounded readers) -/

/-- Big-endian encoding of `n` into `width` bytes (the source's
`write_u32::<NetworkEndian>` / `write_u64` etc.). -/
def beBytes : Nat → Nat → List Nat
  | 0, _ => []
  | w + 1, n => beBytes w (n / 256) ++ [n % 256]

/-- Big-endian decoding of a byte list (the source's
`read_u32::<NetworkEndian>` etc. applied to the bytes it consumed). -/
def beOfBytes (l : List Nat) : Nat :=
  l.foldl (fun acc b => acc * 256 + b) 0

theorem beOfBytes_append_byte (l : List Nat) (b : Nat) :
    beOfBytes (l ++ [b]) = beOfBytes l * 256 + b := by
  simp [beOfBytes, List.foldl_append]

theorem beBytes_length (w n : Nat) : (beBytes w n).length = w := by
  induction w generalizing n with
  | zero => simp [beBytes]
  | succ w ih => simp [beBytes, ih]

theorem beOfBytes_beBytes (w n : Nat) (h : n < 256 ^ w) :
    beOfBytes (beBytes w n) = n := by
  induction w generalizing n with
  | zero =>
    simp [pow_zero] at h
    simp [beBytes, beOfBytes, h]
  | succ w ih =>
    have hdiv : n / 256 < 256 ^ w := by
      rw [Nat.div_lt_iff_lt_mul (by norm_num)]
      calc n < 256 ^ (w + 1) := h
        _ = 256 ^ w * 256 := by ring
    rw [beBytes, beOfBytes_append_byte, ih _ hdiv]
    omega

/-- Split off the first `n` bytes of a stream; `none` when fewer are
available (the source's readers fail with an unexpected end-of-stream error
there). -/
def readBytes (n : Nat) (s : List Nat) : Option (List Nat × List Nat) :=
  if n ≤ s.length then some (s.take n, s.drop n) else none

/-! ### C6: `TlsServerPrivate::cleanup_connections` -/

/-- `MAX_FAILED_PACKETS_ALLOWED` (`src/p2p/tls_server_private.rs` line 23). -/
def MAX_FAILED_PACKETS_ALLOWED : Nat := 50

/-- `MAX_BOOTSTRAPPER_KEEP_ALIVE` (`tls_server_private.rs` line 25), in ms. -/
def MAX_BOOTSTRAPPER_KEEP_ALIVE : Nat := 300000

/-- `MAX_NORMAL_KEEP_ALIVE` (`tls_server_private.rs` line 26), in ms. -/
def MAX_NORMAL_KEEP_ALIVE : Nat := 1200000

/-- The plain-data view of a registry `Connection` used by
`TlsServerPrivate` (token, remote id, stats and the cooperative `closing`
flag). -/
structure Connection where
  token : Nat
  id : Nat
  last_seen : Nat
  connection_type : ConnectionType
  failed_pkts : Nat
  closing : Bool
  has_peer : Bool
deriving DecidableEq, Repr

/-- The three `panic!` sites inside `cleanup_connections`
(`tls_server_private.rs` lines 188, 199 and 211); a panic aborts the pass
before the adjacent `conn.close(..)` call can run. -/
inductive PanicReason where
  | closeByTimeout1
  | closeByTimeout2
  | closeByBan
deriving DecidableEq, Repr

/-- The tail of `cleanup_connections`: the banned-peers loop (which panics
before closing when any banned id has a live connection) followed by the
removal of connections whose `closing` flag is set. -/
def cleanup_connections_tail (banned_ids : List Nat) (conns : List Connection) :
    Except PanicReason (List Connection) :=
  if banned_ids.any (fun i => conns.any (fun c => c.id = i)) then
    Except.error PanicReason.closeByBan
  else
    Except.ok (conns.filter (fun c => ¬ c.closing))

/-- Embedding of `TlsServerPrivate::cleanup_connections`
(`src/p2p/tls_server_private.rs` lines 181-238).  `curr_stamp` stands for
`get_current_stamp()`.  In bootstrapper mode the sweep panics (reason
`closeByTimeout1`) at the first connection idle beyond
`MAX_BOOTSTRAPPER_KEEP_ALIVE`; otherwise it panics (`closeByTimeout2`) at
the first Node connection idle beyond `MAX_NORMAL_KEEP_ALIVE` or with
`failed_pkts >= MAX_FAILED_PACKETS_ALLOWED`; the `conn.close` calls directly
after each `panic!` are unreachable.  The unreachable-nodes cleanup touches
no connection and is omitted. -/
def cleanup_connections (mode : P2PNodeMode) (curr_stamp : Nat) (banned_ids : List Nat)
    (conns : List Connection) : Except PanicReason (List Connection) :=
  if mode = P2PNodeMode.BootstrapperMode then
    if conns.any (fun c => c.last_seen + MAX_BOOTSTRAPPER_KEEP_ALIVE < curr_stamp) then
      Except.error PanicReason.closeByTimeout1
    else cleanup_connections_tail banned_ids conns
  else
    if conns.any (fun c =>
        (c.last_seen + MAX_NORMAL_KEEP_ALIVE < curr_stamp ∧
          c.connection_type = ConnectionType.Node) ∨
        MAX_FAILED_PACKETS_ALLOWED ≤ c.failed_pkts) then
      Except.error PanicReason.closeByTimeout2
    else cleanup_connections_tail banned_ids conns

/-- C6: `cleanup_connections` does not close overdue or over-budget
connections and does not return normally: it panics.  With one Node
connection whose `last_seen` is older than the 1200 s keep-alive the pass
aborts with the first debugging panic; likewise when `failed_pkts = 50`,
and in bootstrapper mode past the 300 s limit. -/
theorem c6_cleanup_panics_instead_of_closing :
    cleanup_connections P2PNodeMode.NormalMode 2000001 []
        [⟨2, 42, 0, ConnectionType.Node, 0, false, true⟩] =
      Except.error PanicReason.closeByTimeout2 ∧
    cleanup_connections P2PNodeMode.NormalMode 100 []
        [⟨2, 42, 0, ConnectionType.Node, 50, false, true⟩] =
      Except.error PanicReason.closeByTimeout2 ∧
    cleanup_connections P2PNodeMode.BootstrapperMode 300002 []
        [⟨2, 42, 1, ConnectionType.Node, 0, false, true⟩] =
      Except.error PanicReason.closeByTimeout1 := ⟨rfl, rfl, rfl⟩

/-! ### C8: `Serial for NetworkPacketType` / `NetworkPacket` -/

/-- An IP address as serialized on the wire (`0x04` + 4 octets for IPv4,
`0x06` + 16 octets for IPv6). -/
inductive IpAddr where
  | v4 (o1 o2 o3 o4 : Nat)
  | v6 (os : List Nat)
deriving DecidableEq, Repr

/-- Modelled from the spec: the envelope's `Peer` field
(id u64, type u8, ip variant, port u16); the source's `P2PPeer` lives in
the missing `common` module. -/
structure P2PPeer where
  id : Nat
  peer_type : PeerType
  ip : IpAddr
  port : Nat
deriving DecidableEq, Repr

/-- Modelled from the spec: `P2PPeer::deserial` reads
id u64 ‖ type u8 ‖ ip variant (`0x04`+4 or `0x06`+16) ‖ port u16. -/
def P2PPeer.deserial (s : List Nat) : Option (P2PPeer × List Nat) := do
  let (idb, s1) ← readBytes 8 s
  let (tyb, s2) ← readBytes 1 s1
  let ty ← match tyb with
    | [0] => some PeerType.Node
    | [1] => some PeerType.Bootstrapper
    | _ => none
  let (tag, s3) ← readBytes 1 s2
  let (ipaddr, s4) ← match tag with
    | [4] => do
      let (os, s4) ← readBytes 4 s3
      match os with
      | [a, b, c, d] => some (IpAddr.v4 a b c d, s4)
      | _ => none
    | [6] => do
      let (os, s4) ← readBytes 16 s3
      some (IpAddr.v6 os, s4)
    | _ => none
  let (portb, s5) ← readBytes 2 s4
  some ({ id := beOfBytes idb, peer_type := ty, ip := ipaddr, port := beOfBytes portb }, s5)

/-- `NetworkPacketType` (`src/network/packet.rs` lines 15-18): a direct
message to a node id, or a broadcast with a list of excluded ids. -/
inductive NetworkPacketType where
  | DirectMessage (receiver : Nat)
  | BroadcastedMessage (excluded : List Nat)
deriving DecidableEq, Repr

/-- `Serial for NetworkPacketType`, serialization direction (`packet.rs`
lines 41-48): the packet-kind byte, then the receiver id for Direct;
Broadcast writes nothing beyond the kind byte — the excluded ids are
dropped. -/
def NetworkPacketType.serial : NetworkPacketType → List Nat
  | NetworkPacketType.DirectMessage r => 0 :: beBytes 8 r
  | NetworkPacketType.BroadcastedMessage _ => [1]

/-- `Serial for NetworkPacketType`, deserialization direction (`packet.rs`
lines 30-39): Broadcast yields an empty exclusion list without reading any
id bytes. -/
def NetworkPacketType.deserial (s : List Nat) : Option (NetworkPacketType × List Nat) := do
  let (tag, s1) ← readBytes 1 s
  match tag with
  | [0] => do
    let (rb, s2) ← readBytes 8 s1
    some (NetworkPacketType.DirectMessage (beOfBytes rb), s2)
  | [1] => some (NetworkPacketType.BroadcastedMessage [], s1)
  | _ => none

/-- `NetworkPacket` (`src/network/packet.rs` lines 56-61). -/
structure NetworkPacket where
  packet_type : NetworkPacketType
  peer : P2PPeer
  network_id : Nat
  message : List Nat
deriving DecidableEq, Repr

/-- `Serial for NetworkPacket`, serialization direction (`packet.rs` lines
84-88): packet type, then network id, then the payload — the `peer` field is
not written.  The network id is a big-endian u16 and the payload is length
(u32) plus bytes, both modelled from the spec (the source impls live in the
missing `network_id.rs` and `concordium_common`). -/
def NetworkPacket.serial (p : NetworkPacket) : List Nat :=
  p.packet_type.serial ++ beBytes 2 p.network_id ++ beBytes 4 p.message.length ++ p.message

/-- `Serial for NetworkPacket`, deserialization direction (`packet.rs` lines
75-81): packet type, then a `P2PPeer`, then network id, then the payload. -/
def NetworkPacket.deserial (s : List Nat) : Option (NetworkPacket × List Nat) := do
  let (pt, s1) ← NetworkPacketType.deserial s
  let (peer, s2) ← P2PPeer.deserial s1
  let (nidb, s3) ← readBytes 2 s2
  let (lenb, s4) ← readBytes 4 s3
  let (msg, s5) ← readBytes (beOfBytes lenb) s4
  some ({ packet_type := pt, peer := peer, network_id := beOfBytes nidb, message := msg }, s5)

/-- C8: deserializing the serialization of a `NetworkPacket` does not yield
the packet back.  For a concrete Direct packet the round trip fails
outright (serial never writes the sender peer that deserial expects), and
for Broadcast the excluded ids are not carried on the wire: serializing
`Broadcast([5])` writes only the kind byte, which deserializes to
`Broadcast([])`. -/
theorem c8_packet_roundtrip_broken :
    NetworkPacket.deserial (NetworkPacket.serial
        { packet_type := NetworkPacketType.DirectMessage 7,
          peer := { id := 1, peer_type := PeerType.Node, ip := IpAddr.v4 127 0 0 1,
                    port := 8888 },
          network_id := 0, message := [] }) = none ∧
    NetworkPacketType.serial (NetworkPacketType.BroadcastedMessage [5]) = [1] ∧
    NetworkPacketType.deserial
        (NetworkPacketType.serial (NetworkPacketType.BroadcastedMessage [5])) =
      some (NetworkPacketType.BroadcastedMessage [], []) := by decide

/-! ### C2: `P2PNode::ban_node` (`src/p2p/bans.rs`) -/

/-- `BanId` (`src/p2p/bans.rs` lines 20-24): ban by node id, by IP, or by
socket address. -/
inductive BanId where
  | NodeId (id : Nat)
  | Ip (addr : IpAddr)
  | Socket (addr : IpAddr) (port : Nat)
deriving DecidableEq, Repr

/-- Wire form of an `IpAddr` (`crypto_common`, modelled from the spec:
`0x04` + 4 octets for IPv4, `0x06` + 16 octets for IPv6). -/
def IpAddr.serial : IpAddr → List Nat
  | IpAddr.v4 a b c d => [4, a, b, c, d]
  | IpAddr.v6 os => 6 :: os

/-- `Serial for BanId` (`bans.rs` lines 26-40): tag byte `0` + id or `1` +
address; serializing a socket-address ban is `unimplemented!` (a panic),
embedded as `none`. -/
def BanId.serial : BanId → Option (List Nat)
  | BanId.NodeId i => some (0 :: beBytes 8 i)
  | BanId.Ip addr => some (1 :: addr.serial)
  | BanId.Socket _ _ => none

/-- The view of a registry connection used by `ban_node`: its poller token,
the remote peer's id and IP, and whether it is closing. -/
structure ConnEntry where
  token : Nat
  id : Nat
  ip : IpAddr
  closing : Bool
deriving DecidableEq, Repr

/-- The `P2PNode` state touched by `ban_node`: the persistent ban store
(the set of encoded keys in the `bans` KV store), the connection registry,
the `no_trust_bans` configuration flag, and the `BanNode` requests
broadcast so far. -/
structure P2PNodeState where
  kvs_bans : List (List Nat)
  connections : List ConnEntry
  no_trust_bans : Bool
  sent_bans : List BanId
deriving DecidableEq, Repr

/-- Modelled from the spec: `register_conn_change(ConnChange::Removal(tok))`
forces closure of the connection registered under token `tok` ("forces
closure of every connection whose id or ip matches"). -/
def register_conn_change_removal (conns : List ConnEntry) (tok : Nat) : List ConnEntry :=
  conns.map (fun c => if c.token = tok then { c with closing := true } else c)

/-- Modelled from the spec: the `find_conn_by_id!` macro returns the (first)
connection whose remote id equals `i`. -/
def find_conn_by_id (conns : List ConnEntry) (i : Nat) : Option ConnEntry :=
  conns.find? (fun c => c.id = i)

/-- Modelled from the spec: the `find_conns_by_ip!` macro returns every
connection whose remote IP equals `addr`. -/
def find_conns_by_ip (conns : List ConnEntry) (addr : IpAddr) : List ConnEntry :=
  conns.filter (fun c => c.ip = addr)

/-- The connection-registry update performed by `ban_node` (`bans.rs` lines
71-83): register a `Removal` for the connection found by id, or for every
connection with the banned IP; socket bans never reach this match arm. -/
def ban_conns (conns : List ConnEntry) : BanId → List ConnEntry
  | BanId.NodeId i =>
    match find_conn_by_id conns i with
    | some c => register_conn_change_removal conns c.token
    | none => conns
  | BanId.Ip addr =>
    (find_conns_by_ip conns addr).foldl
      (fun cs c => register_conn_change_removal cs c.token) conns
  | BanId.Socket _ _ => conns

/-- Embedding of `P2PNode::ban_node` (`src/p2p/bans.rs` lines 57-90): write
the encoded ban to the `bans` store, then register a `Removal` for the
matching connection (by id) or connections (by ip), then, unless
`no_trust_bans` is set, broadcast the `BanNode` request.  The
socket-address arm panics (`unimplemented!`), embedded as `Except.error`. -/
def ban_node (s : P2PNodeState) (peer : BanId) : Except Unit P2PNodeState :=
  match BanId.serial peer with
  | none => Except.error ()
  | some store_key =>
    let s1 : P2PNodeState := { s with kvs_bans := s.kvs_bans ++ [store_key] }
    let s2 : P2PNodeState := { s1 with connections := ban_conns s1.connections peer }
    if ¬ s2.no_trust_bans then Except.ok { s2 with sent_bans := s2.sent_bans ++ [peer] }
    else Except.ok s2

theorem ban_node_eq (s : P2PNodeState) (peer : BanId) (key : List Nat)
    (h : BanId.serial peer = some key) :
    ban_node s peer = Except.ok
      { kvs_bans := s.kvs_bans ++ [key],
        connections := ban_conns s.connections peer,
        no_trust_bans := s.no_trust_bans,
        sent_bans := if s.no_trust_bans then s.sent_bans else s.sent_bans ++ [peer] } := by
  by_cases hnt : s.no_trust_bans <;>
    cases peer <;> simp_all [ban_node, BanId.serial]

theorem register_conn_change_removal_mem {conns : List ConnEntry} {tok : Nat}
    {c : ConnEntry} (hc : c ∈ register_conn_change_removal conns tok) :
    ∃ b ∈ conns, c.id = b.id ∧ c.ip = b.ip ∧ c.token = b.token ∧
      (c.closing = true ∨ (c.closing = b.closing ∧ b.token ≠ tok)) := by
  rcases List.mem_map.mp hc with ⟨b, hb, hbc⟩
  by_cases h : b.token = tok
  · refine ⟨b, hb, ?_, ?_, ?_, Or.inl ?_⟩ <;> (rw [← hbc]; simp [h])
  · refine ⟨b, hb, ?_, ?_, ?_, Or.inr ⟨?_, h⟩⟩ <;> (rw [← hbc]; simp [h])

/-- Folding `Removal` registrations over a list of matching connections
closes every connection whose IP matches, provided every such connection's
token occurs among the matches (or it is already closing). -/
theorem fold_removal_closes (a : IpAddr) :
    ∀ (ms acc : List ConnEntry),
      (∀ b ∈ acc, b.ip = a → b.closing = true ∨ ∃ m ∈ ms, b.token = m.token) →
      ∀ c ∈ ms.foldl (fun cs m => register_conn_change_removal cs m.token) acc,
        c.ip = a → c.closing = true := by
  intro ms
  induction ms with
  | nil =>
    intro acc hacc c hc hca
    rcases hacc c hc hca with h | ⟨m, hm, _⟩
    · exact h
    · exact absurd hm (List.not_mem_nil m)
  | cons m rest ih =>
    intro acc hacc c hc hca
    refine ih (register_conn_change_removal acc m.token) ?_ c hc hca
    intro b2 hb2 hb2a
    rcases register_conn_change_removal_mem hb2 with
      ⟨b, hb, hid, hip, htok, hclos | ⟨hclos, htokne⟩⟩
    · exact Or.inl hclos
    · rcases hacc b hb (hip ▸ hb2a) with h | ⟨m2, hm2, htok2⟩
      · exact Or.inl (hclos.trans h)
      · rcases List.mem_cons.mp hm2 with rfl | hm2rest
        · exact absurd htok2 htokne
        · exact Or.inr ⟨m2, hm2rest, htok.trans htok2⟩

/-- C2: for every `BanId` of the form `NodeId i` or `Ip a`, `ban_node`
returns successfully; the encoded ban is in the persistent ban store; every
connection whose id (for `NodeId`, given that remote ids are unique in the
registry) or IP (for `Ip`) matches the ban is closing; and the `BanNode`
request has been broadcast exactly when `no_trust_bans` is unset. -/
theorem c2_ban_node_spec (s : P2PNodeState) (peer : BanId)
    (hform : (∃ i, peer = BanId.NodeId i) ∨ (∃ a, peer = BanId.Ip a))
    (huniq : s.connections.Pairwise (fun x y => x.id ≠ y.id)) :
    ∃ s2, ban_node s peer = Except.ok s2 ∧
      (∃ key, BanId.serial peer = some key ∧ key ∈ s2.kvs_bans) ∧
      (∀ c ∈ s2.connections,
        (∀ i, peer = BanId.NodeId i → c.id = i → c.closing = true) ∧
        (∀ a, peer = BanId.Ip a → c.ip = a → c.closing = true)) ∧
      s2.sent_bans = (if s.no_trust_bans then s.sent_bans else s.sent_bans ++ [peer]) := by
  have hkey : ∃ key, BanId.serial peer = some key := by
    rcases hform with ⟨i, rfl⟩ | ⟨a, rfl⟩ <;> exact ⟨_, rfl⟩
  rcases hkey with ⟨key, hkeyeq⟩
  refine ⟨_, ban_node_eq s peer key hkeyeq, ⟨key, hkeyeq, by simp⟩, ?_, rfl⟩
  intro c hc
  constructor
  · intro i hpi hci
    subst hpi
    cases hfind : find_conn_by_id s.connections i with
    | none =>
      simp only [ban_conns, hfind] at hc
      have hnone := List.find?_eq_none.mp hfind c hc
      simp [hci] at hnone
    | some c0 =>
      simp only [ban_conns, hfind] at hc
      have hc0id : c0.id = i := by simpa using List.find?_some hfind
      have hc0mem : c0 ∈ s.connections := List.mem_of_find?_eq_some hfind
      rcases register_conn_change_removal_mem hc with
        ⟨b, hb, hid, _, _, hclos | ⟨_, htokne⟩⟩
      · exact hclos
      · -- `b` has id `i`, so by uniqueness `b = c0`, whose token was marked
        have hbid : b.id = i := hid.symm.trans hci
        have hsymm : Symmetric (fun x y : ConnEntry => x.id ≠ y.id) := fun _ _ h => h.symm
        have hbc0 : b = c0 := by
          by_contra hne
          exact absurd (hbid.trans hc0id.symm)
            (List.Pairwise.forall hsymm huniq hb hc0mem hne)
        exact absurd (congrArg ConnEntry.token hbc0) htokne
  · intro a hpa hca
    subst hpa
    simp only [ban_conns] at hc
    refine fold_removal_closes a _ _ ?_ c hc hca
    intro b hb hba
    exact Or.inr ⟨b, by simp [find_conns_by_ip, List.mem_filter, hb, hba], rfl⟩

/-- C2 witness: banning node id 42 in a concrete node state with one
matching connection succeeds, stores the encoded ban, closes the
connection and broadcasts the ban. -/
theorem c2_ban_node_spec_witness :
    ∃ s2, ban_node
        { kvs_bans := [], connections := [⟨2, 42, IpAddr.v4 10 0 0 1, false⟩],
          no_trust_bans := false, sent_bans := [] } (BanId.NodeId 42) = Except.ok s2 ∧
      (∃ key, BanId.serial (BanId.NodeId 42) = some key ∧ key ∈ s2.kvs_bans) ∧
      (∀ c ∈ s2.connections,
        (∀ i, BanId.NodeId 42 = BanId.NodeId i → c.id = i → c.closing = true) ∧
        (∀ a, BanId.NodeId 42 = BanId.Ip a → c.ip = a → c.closing = true)) ∧
      s2.sent_bans = (if (false : Bool) then [] else [] ++ [BanId.NodeId 42]) :=
  c2_ban_node_spec
    { kvs_bans := [], connections := [⟨2, 42, IpAddr.v4 10 0 0 1, false⟩],
      no_trust_bans := false, sent_bans := [] } (BanId.NodeId 42)
    (Or.inl ⟨42, rfl⟩) (by simp)

/-! ### The connection low level: reading (`src/connection/low_level.rs`) -/

/-- `PROTOCOL_MAX_MESSAGE_SIZE` (`src/network/mod.rs` line 54): 256 MiB. -/
def PROTOCOL_MAX_MESSAGE_SIZE : Nat := 268435456

/-- `NOISE_MAX_MESSAGE_LEN` (`low_level.rs` line 29): 64 KiB − 1. -/
def NOISE_MAX_MESSAGE_LEN : Nat := 64 * 1024 - 1

/-- `MAC_LENGTH` from `noiseexplorer_xx::consts` (16-byte AEAD tag),
equal to `NOISE_AUTH_TAG_LEN` (`low_level.rs` line 30). -/
def MAC_LENGTH : Nat := 16

/-- `NOISE_MAX_PAYLOAD_LEN` (`low_level.rs` line 31): 65 519. -/
def NOISE_MAX_PAYLOAD_LEN : Nat := NOISE_MAX_MESSAGE_LEN - MAC_LENGTH

/-- One event of the non-blocking read socket: either some available bytes
or a would-block condition. -/
inductive SockEv where
  | bytes (bs : List Nat)
  | wouldBlock
deriving DecidableEq, Repr

/-- Outcome of one `socket.read` call. -/
inductive ReadOutcome where
  | ok (bs : List Nat)
  | wouldBlock
deriving DecidableEq, Repr

/-- Non-blocking `socket.read(&mut buf[..n])` against the event list: a
zero-length read touches nothing; otherwise the next event either blocks or
yields up to `n` of its bytes (surplus bytes stay available for the next
read). -/
def sockRead (sock : List SockEv) (n : Nat) : ReadOutcome × List SockEv :=
  if n = 0 then (ReadOutcome.ok [], sock)
  else
    match sock with
    | [] => (ReadOutcome.wouldBlock, [])
    | SockEv.wouldBlock :: rest => (ReadOutcome.wouldBlock, rest)
    | SockEv.bytes bs :: rest =>
      if bs.length ≤ n then (ReadOutcome.ok bs, rest)
      else (ReadOutcome.ok (bs.take n), SockEv.bytes (bs.drop n) :: rest)

/-- `IncomingMessage` (`low_level.rs` lines 51-55): the frame being read and
its remaining byte count. -/
structure IncomingMessage where
  pending_bytes : Nat
  message : List Nat
deriving DecidableEq, Repr

/-- Result of one step of the reader.  `blocked` embeds the
`StreamWouldBlock` failure produced by `map_io_error_to_fail!` (modelled
from the spec: a would-block io error surfaces as that failure); `tooBig`
embeds `MessageTooBigError`. -/
inductive ReadRes where
  | complete (payload : List Nat)
  | incomplete
  | blocked
  | tooBig (expected : Nat)
deriving DecidableEq, Repr

/-- The loop of `ConnectionLowLevel::read_payload`/`read_intermediate`
(`low_level.rs` lines 298-342): read up to
`min(pending_bytes, NOISE_MAX_MESSAGE_LEN)` bytes, append them to the
message and decrement `pending_bytes`, until a read yields no bytes.  The
fuel is instantiated with `pending_bytes`, which bounds the number of
productive iterations. -/
def read_payload_go : Nat → IncomingMessage → List SockEv → IncomingMessage × List SockEv
  | 0, st, sock => (st, sock)
  | fuel + 1, st, sock =>
    if st.pending_bytes = 0 then (st, sock)
    else
      match sockRead sock (min st.pending_bytes NOISE_MAX_MESSAGE_LEN) with
      | (ReadOutcome.wouldBlock, sock2) => (st, sock2)
      | (ReadOutcome.ok bs, sock2) =>
        if bs.length = 0 then (st, sock2)
        else read_payload_go fuel
          { pending_bytes := st.pending_bytes - bs.length, message := st.message ++ bs } sock2

/-- `ConnectionLowLevel::read_payload` (`low_level.rs` lines 298-317): drain
the socket into the current message; when `pending_bytes` reaches `0` the
completed message is handed out and the buffer replaced by a fresh one. -/
def read_payload (st : IncomingMessage) (sock : List SockEv) :
    ReadRes × IncomingMessage × List SockEv :=
  match read_payload_go st.pending_bytes st sock with
  | (st2, sock2) =>
    if st2.pending_bytes = 0 then
      (ReadRes.complete st2.message, { pending_bytes := 0, message := [] }, sock2)
    else (ReadRes.incomplete, st2, sock2)

/-- `ConnectionLowLevel::pending_bytes_to_know_expected_size`
(`low_level.rs` lines 243-251). -/
def pending_bytes_to_know_expected_size (st : IncomingMessage) : Nat :=
  if st.message.length < 4 then 4 - st.message.length else 0

/-- `ConnectionLowLevel::read_expected_size` (`low_level.rs` lines 254-295):
assemble the 4-byte big-endian length prefix; once complete, fail with
`MessageTooBigError` when it exceeds `PROTOCOL_MAX_MESSAGE_SIZE` (before
the message buffer for the payload is allocated and before any payload byte
is read), otherwise set `pending_bytes` to the parsed length, reset the
buffer and continue with `read_payload`. -/
def read_expected_size (st : IncomingMessage) (sock : List SockEv) :
    ReadRes × IncomingMessage × List SockEv :=
  let min_bytes := pending_bytes_to_know_expected_size st
  match sockRead sock min_bytes with
  | (ReadOutcome.wouldBlock, sock2) => (ReadRes.blocked, st, sock2)
  | (ReadOutcome.ok bs, sock2) =>
    let msg2 := st.message ++ bs
    if msg2.length = 4 then
      let expected_size := beOfBytes msg2
      if PROTOCOL_MAX_MESSAGE_SIZE < expected_size then
        (ReadRes.tooBig expected_size, { pending_bytes := st.pending_bytes, message := msg2 },
          sock2)
      else read_payload { pending_bytes := expected_size, message := [] } sock2
    else (ReadRes.incomplete, { pending_bytes := st.pending_bytes, message := msg2 }, sock2)

/-- C3: with a fresh reader, a frame whose 4-byte big-endian length prefix
`L` exceeds 256 MiB fails with `MessageTooBig` as soon as the prefix is
parsed: the payload bytes are still untouched on the socket and no payload
buffer was set up (`pending_bytes` is still 0, the reader holds only the 4
prefix bytes).  A prefix `L ≤ 256 MiB` is accepted and `pending_bytes` is
set to exactly `L`. -/
theorem c3_length_prefix_limit (L : Nat) (payload : List Nat)
    (hover : PROTOCOL_MAX_MESSAGE_SIZE < L) (hL : L < 2 ^ 32) (hpay : payload ≠ []) :
    read_expected_size ⟨0, []⟩ [SockEv.bytes (beBytes 4 L ++ payload)] =
      (ReadRes.tooBig L, ⟨0, beBytes 4 L⟩, [SockEv.bytes payload]) ∧
    (∀ L2, L2 ≤ PROTOCOL_MAX_MESSAGE_SIZE → 0 < L2 →
      read_expected_size ⟨0, []⟩ [SockEv.bytes (beBytes 4 L2)] =
        (ReadRes.incomplete, ⟨L2, []⟩, [])) := by
  constructor
  · have hlen4 : (beBytes 4 L).length = 4 := beBytes_length 4 L
    have hplen : payload.length ≠ 0 := fun h0 => hpay (List.length_eq_zero.mp h0)
    have hgt : ¬ ((beBytes 4 L ++ payload).length ≤ 4) := by
      rw [List.length_append, hlen4]
      omega
    have hsock : sockRead [SockEv.bytes (beBytes 4 L ++ payload)] 4 =
        (ReadOutcome.ok (beBytes 4 L), [SockEv.bytes payload]) := by
      simp [sockRead, hgt, List.take_left' hlen4, List.drop_left' hlen4]
      omega
    have hmin : pending_bytes_to_know_expected_size ⟨0, []⟩ = 4 := rfl
    simp only [read_expected_size, hmin, hsock, List.nil_append, hlen4,
      beOfBytes_beBytes 4 L (by simpa using hL), if_pos hover]
    simp
  · intro L2 hle hpos
    have hlen4 : (beBytes 4 L2).length = 4 := beBytes_length 4 L2
    have hL2 : L2 < 2 ^ 32 := by
      have : PROTOCOL_MAX_MESSAGE_SIZE < 2 ^ 32 := by norm_num [PROTOCOL_MAX_MESSAGE_SIZE]
      omega
    obtain ⟨k, rfl⟩ : ∃ k, L2 = k + 1 := ⟨L2 - 1, by omega⟩
    have hsock : sockRead [SockEv.bytes (beBytes 4 (k + 1))] 4 =
        (ReadOutcome.ok (beBytes 4 (k + 1)), []) := by
      simp [sockRead, le_of_eq hlen4]
    have hmin : pending_bytes_to_know_expected_size ⟨0, []⟩ = 4 := rfl
    have hmin0 : ¬ (min (k + 1) NOISE_MAX_MESSAGE_LEN = 0) := by
      simp only [NOISE_MAX_MESSAGE_LEN]
      omega
    have hrp : read_payload ⟨k + 1, []⟩ [] = (ReadRes.incomplete, ⟨k + 1, []⟩, []) := by
      have hgo : read_payload_go (k + 1) ⟨k + 1, []⟩ [] = (⟨k + 1, []⟩, []) := by
        simp [read_payload_go, sockRead, hmin0]
      simp [read_payload, hgo]
    simp only [read_expected_size, hmin, hsock, List.nil_append, hlen4,
      beOfBytes_beBytes 4 (k + 1) (by simpa using hL2), if_neg (not_lt.mpr hle), hrp]
    simp

/-- C3 witness: the oversized branch at the spec's example prefix
`300 000 000` with a 1-byte payload pending, and the acceptance branch at
the exact 256 MiB ceiling. -/
theorem c3_length_prefix_limit_witness :
    (read_expected_size ⟨0, []⟩ [SockEv.bytes (beBytes 4 300000000 ++ [9])] =
      (ReadRes.tooBig 300000000, ⟨0, beBytes 4 300000000⟩, [SockEv.bytes [9]]) ∧
    (∀ L2, L2 ≤ PROTOCOL_MAX_MESSAGE_SIZE → 0 < L2 →
      read_expected_size ⟨0, []⟩ [SockEv.bytes (beBytes 4 L2)] =
        (ReadRes.incomplete, ⟨L2, []⟩, []))) ∧
    PROTOCOL_MAX_MESSAGE_SIZE < 300000000 ∧ (9 : Nat) ≠ 0 :=
  ⟨c3_length_prefix_limit 300000000 [9] (by norm_num [PROTOCOL_MAX_MESSAGE_SIZE])
      (by norm_num) (by simp),
    by norm_num [PROTOCOL_MAX_MESSAGE_SIZE], by norm_num⟩

/-! ### The connection low level: chunked encryption (`encrypt`, `decrypt`) -/

theorem NOISE_MAX_MESSAGE_LEN_eq : NOISE_MAX_MESSAGE_LEN = 65535 := by
  norm_num [NOISE_MAX_MESSAGE_LEN]

theorem NOISE_MAX_PAYLOAD_LEN_eq : NOISE_MAX_PAYLOAD_LEN = 65519 := by
  norm_num [NOISE_MAX_PAYLOAD_LEN, NOISE_MAX_MESSAGE_LEN, MAC_LENGTH]

/-- Modelled from the spec: a Noise transport `send_message` seals a
plaintext chunk into a wire chunk of the same length plus the 16-byte AEAD
tag.  The cipher is abstracted as the identity plus the tag, which keeps
the byte accounting of the source exact. -/
def sealChunk (p : List Nat) : List Nat := p ++ List.replicate MAC_LENGTH 0

/-- Modelled from the spec: `recv_message` on a sealed transport chunk
verifies the trailing 16-byte tag and yields the chunk minus the tag;
chunks shorter than the tag or with a bad tag are rejected. -/
def unsealChunk (c : List Nat) : Option (List Nat) :=
  if MAC_LENGTH ≤ c.length ∧ c.drop (c.length - MAC_LENGTH) = List.replicate MAC_LENGTH 0
  then some (c.take (c.length - MAC_LENGTH)) else none

theorem sealChunk_length (p : List Nat) : (sealChunk p).length = p.length + MAC_LENGTH := by
  simp [sealChunk]

theorem unsealChunk_sealChunk (p : List Nat) : unsealChunk (sealChunk p) = some p := by
  have hidx : (sealChunk p).length - MAC_LENGTH = p.length := by
    rw [sealChunk_length]; omega
  rw [unsealChunk, if_pos]
  · rw [hidx]
    simp [sealChunk]
  · constructor
    · rw [sealChunk_length]; omega
    · rw [hidx]
      simp [sealChunk]

/-- `ConnectionLowLevel::encrypt_chunks` (`low_level.rs` lines 469-499):
split the input into `NOISE_MAX_PAYLOAD_LEN`-byte pieces and seal each with
the Noise session. -/
def encrypt_chunks (input : List Nat) : List (List Nat) :=
  if h : input = [] then []
  else
    sealChunk (input.take NOISE_MAX_PAYLOAD_LEN) ::
      encrypt_chunks (input.drop NOISE_MAX_PAYLOAD_LEN)
termination_by input.length
decreasing_by
  simp only [List.length_drop]
  have hlen : input.length ≠ 0 := fun h0 => h (List.length_eq_zero.mp h0)
  have h1 : NOISE_MAX_PAYLOAD_LEN = 65519 := NOISE_MAX_PAYLOAD_LEN_eq
  omega

theorem encrypt_chunks_eq (p : List Nat) :
    encrypt_chunks p = if p = [] then []
      else sealChunk (p.take NOISE_MAX_PAYLOAD_LEN) ::
        encrypt_chunks (p.drop NOISE_MAX_PAYLOAD_LEN) := by
  by_cases h : p = [] <;> rw [encrypt_chunks] <;> simp [h]

/-- `ConnectionLowLevel::decrypt` with `decrypt_chunk` (`low_level.rs` lines
345-414), written as recursion on the ciphertext: the source computes
`⌊len / 65535⌋` full chunks plus one trailing partial chunk and unseals
them in order; this recursion consumes exactly those chunks. -/
def decryptBytes (c : List Nat) : Option (List Nat) :=
  if c.length = 0 then some []
  else if h : NOISE_MAX_MESSAGE_LEN ≤ c.length then
    match unsealChunk (c.take NOISE_MAX_MESSAGE_LEN),
        decryptBytes (c.drop NOISE_MAX_MESSAGE_LEN) with
    | some pt, some rest => some (pt ++ rest)
    | _, _ => none
  else
    match unsealChunk c with
    | some pt => some pt
    | none => none
termination_by c.length
decreasing_by
  simp only [List.length_drop]
  have h1 : NOISE_MAX_MESSAGE_LEN = 65535 := NOISE_MAX_MESSAGE_LEN_eq
  omega

theorem decryptBytes_eq (c : List Nat) :
    decryptBytes c = if c.length = 0 then some []
      else if NOISE_MAX_MESSAGE_LEN ≤ c.length then
        match unsealChunk (c.take NOISE_MAX_MESSAGE_LEN),
            decryptBytes (c.drop NOISE_MAX_MESSAGE_LEN) with
        | some pt, some rest => some (pt ++ rest)
        | _, _ => none
      else
        match unsealChunk c with
        | some pt => some pt
        | none => none := by
  by_cases h0 : c.length = 0
  · rw [decryptBytes]
    simp [h0]
  · by_cases h1 : NOISE_MAX_MESSAGE_LEN ≤ c.length <;> rw [decryptBytes] <;> simp [h0, h1]

theorem encrypt_chunks_nil : encrypt_chunks [] = [] := by
  rw [encrypt_chunks_eq]
  simp

/-- Total sealed length: each chunk adds the 16-byte tag to its plaintext. -/
theorem encrypt_chunks_join_length (p : List Nat) :
    ((encrypt_chunks p).flatten).length = p.length + MAC_LENGTH * (encrypt_chunks p).length := by
  induction p using encrypt_chunks.induct with
  | case1 =>
    rw [encrypt_chunks_eq]
    simp
  | case2 p h ih =>
    rw [encrypt_chunks_eq, if_neg h]
    simp only [List.flatten_cons, List.length_append, List.length_cons, sealChunk_length, ih,
      List.length_take, List.length_drop]
    rw [show MAC_LENGTH = 16 from rfl]
    omega

/-- The number of sealed chunks is the ceiling of the total ciphertext
length divided by 65 535. -/
theorem encrypt_chunks_count (p : List Nat) :
    (encrypt_chunks p).length =
      (((encrypt_chunks p).flatten).length + (NOISE_MAX_MESSAGE_LEN - 1)) /
        NOISE_MAX_MESSAGE_LEN := by
  induction p using encrypt_chunks.induct with
  | case1 =>
    rw [encrypt_chunks_eq]
    simp [NOISE_MAX_MESSAGE_LEN_eq]
  | case2 p h ih =>
    have hplen : p.length ≠ 0 := fun h0 => h (List.length_eq_zero.mp h0)
    rw [encrypt_chunks_eq, if_neg h]
    simp only [List.flatten_cons, List.length_append, List.length_cons, sealChunk_length,
      List.length_take]
    rw [NOISE_MAX_MESSAGE_LEN_eq] at ih ⊢
    rw [NOISE_MAX_PAYLOAD_LEN_eq] at ih ⊢
    rw [show MAC_LENGTH = 16 from rfl]
    by_cases hle : p.length ≤ 65519
    · have hdrop : p.drop 65519 = [] := List.drop_eq_nil_of_le hle
      rw [hdrop, encrypt_chunks_nil] at ih ⊢
      simp only [List.flatten_nil, List.length_nil]
      omega
    · omega

/-- Every sealed chunk is a tagged plaintext piece of at most
`NOISE_MAX_PAYLOAD_LEN` bytes, hence at most `NOISE_MAX_MESSAGE_LEN` bytes
on the wire. -/
theorem encrypt_chunks_shape (p : List Nat) :
    ∀ c ∈ encrypt_chunks p, ∃ q, q.length ≤ NOISE_MAX_PAYLOAD_LEN ∧ c = sealChunk q ∧
      c.length ≤ NOISE_MAX_MESSAGE_LEN := by
  induction p using encrypt_chunks.induct with
  | case1 =>
    rw [encrypt_chunks_eq]
    simp
  | case2 p h ih =>
    rw [encrypt_chunks_eq, if_neg h]
    intro c hc
    rcases List.mem_cons.mp hc with rfl | hmem
    · refine ⟨p.take NOISE_MAX_PAYLOAD_LEN, ?_, rfl, ?_⟩
      · simp
      · rw [sealChunk_length]
        simp only [List.length_take]
        rw [NOISE_MAX_PAYLOAD_LEN_eq, NOISE_MAX_MESSAGE_LEN_eq, show MAC_LENGTH = 16 from rfl]
        omega
    · exact ih c hmem

/-- The ciphertext is at most twice the plaintext plus one tag — enough to
keep the 4-byte length header in range for any payload under the protocol
ceiling. -/
theorem encrypt_chunks_flatten_le (p : List Nat) :
    ((encrypt_chunks p).flatten).length ≤ 2 * p.length + MAC_LENGTH := by
  induction p using encrypt_chunks.induct with
  | case1 =>
    rw [encrypt_chunks_eq]
    simp
  | case2 p h ih =>
    rw [encrypt_chunks_eq, if_neg h]
    simp only [List.flatten_cons, List.length_append, sealChunk_length, List.length_take]
    rw [NOISE_MAX_PAYLOAD_LEN_eq] at ih ⊢
    rw [show MAC_LENGTH = 16 from rfl] at ih ⊢
    by_cases hle : p.length ≤ 65519
    · have hdrop : p.drop 65519 = [] := List.drop_eq_nil_of_le hle
      rw [hdrop, encrypt_chunks_nil]
      simp only [List.flatten_nil, List.length_nil]
      omega
    · simp only [List.length_drop] at ih
      omega

/-- Round trip: decrypting the concatenation of the sealed chunks restores
the plaintext exactly. -/
theorem decryptBytes_encrypt_chunks (p : List Nat) :
    decryptBytes ((encrypt_chunks p).flatten) = some p := by
  induction p using encrypt_chunks.induct with
  | case1 =>
    rw [encrypt_chunks_eq]
    simp [decryptBytes_eq]
  | case2 p h ih =>
    have hplen : p.length ≠ 0 := fun h0 => h (List.length_eq_zero.mp h0)
    rw [encrypt_chunks_eq, if_neg h]
    by_cases hle : p.length < NOISE_MAX_PAYLOAD_LEN
    · -- a single, final chunk strictly below the wire-chunk limit
      have htake : p.take NOISE_MAX_PAYLOAD_LEN = p := List.take_of_length_le (le_of_lt hle)
      have hdrop : p.drop NOISE_MAX_PAYLOAD_LEN = [] := List.drop_eq_nil_of_le (le_of_lt hle)
      rw [htake, hdrop, encrypt_chunks_nil]
      simp only [List.flatten_cons, List.flatten_nil, List.append_nil]
      rw [decryptBytes_eq]
      rw [if_neg (by rw [sealChunk_length, show MAC_LENGTH = 16 from rfl]; omega)]
      rw [if_neg (by
        rw [sealChunk_length, NOISE_MAX_MESSAGE_LEN_eq, show MAC_LENGTH = 16 from rfl]
        rw [NOISE_MAX_PAYLOAD_LEN_eq] at hle
        omega)]
      rw [unsealChunk_sealChunk]
    · -- a full 65 535-byte wire chunk followed by the rest
      have htakelen : (p.take NOISE_MAX_PAYLOAD_LEN).length = NOISE_MAX_PAYLOAD_LEN := by
        simp only [List.length_take]
        omega
      have hchunklen : (sealChunk (p.take NOISE_MAX_PAYLOAD_LEN)).length =
          NOISE_MAX_MESSAGE_LEN := by
        rw [sealChunk_length, htakelen, NOISE_MAX_PAYLOAD_LEN_eq, NOISE_MAX_MESSAGE_LEN_eq,
          show MAC_LENGTH = 16 from rfl]
      simp only [List.flatten_cons]
      rw [decryptBytes_eq]
      rw [if_neg (by
        simp only [List.length_append, hchunklen, NOISE_MAX_MESSAGE_LEN_eq]
        omega)]
      rw [if_pos (by
        simp only [List.length_append, hchunklen]
        omega)]
      rw [List.take_left' hchunklen, List.drop_left' hchunklen, unsealChunk_sealChunk, ih]
      show some (p.take NOISE_MAX_PAYLOAD_LEN ++ p.drop NOISE_MAX_PAYLOAD_LEN) = some p
      rw [List.take_append_drop]

/-- Feeding any segmentation of the frame body through the
`read_payload` loop assembles the same message, regardless of how the bytes
were split across socket reads. -/
theorem read_payload_go_assembles :
    ∀ (fuel : Nat) (st : IncomingMessage) (segs : List (List Nat)),
      (∀ s ∈ segs, s ≠ []) →
      (segs.map List.length).sum = st.pending_bytes →
      st.pending_bytes ≤ fuel →
      read_payload_go fuel st (segs.map SockEv.bytes) =
        ({ pending_bytes := 0, message := st.message ++ segs.flatten }, []) := by
  intro fuel
  induction fuel with
  | zero =>
    intro st segs hne hsum hle
    have hp0 : st.pending_bytes = 0 := Nat.le_zero.mp hle
    have hsegs : segs = [] := by
      cases segs with
      | nil => rfl
      | cons s rest =>
        exfalso
        simp only [List.map_cons, List.sum_cons, hp0] at hsum
        have hs0 : s.length = 0 := by omega
        exact hne s (List.mem_cons_self s rest) (List.length_eq_zero.mp hs0)
    subst hsegs
    obtain ⟨pb, msg⟩ := st
    simp only at hp0
    subst hp0
    simp [read_payload_go]
  | succ fuel ih =>
    intro st segs hne hsum hle
    by_cases hp0 : st.pending_bytes = 0
    · have hsegs : segs = [] := by
        cases segs with
        | nil => rfl
        | cons s rest =>
          exfalso
          simp only [List.map_cons, List.sum_cons, hp0] at hsum
          have hs0 : s.length = 0 := by omega
          exact hne s (List.mem_cons_self s rest) (List.length_eq_zero.mp hs0)
      subst hsegs
      obtain ⟨pb, msg⟩ := st
      simp only at hp0
      subst hp0
      simp [read_payload_go]
    · have hn0 : ¬ (min st.pending_bytes NOISE_MAX_MESSAGE_LEN = 0) := by
        rw [NOISE_MAX_MESSAGE_LEN_eq]
        omega
      cases segs with
      | nil =>
        exfalso
        simp only [List.map_nil, List.sum_nil] at hsum
        exact hp0 hsum.symm
      | cons s rest =>
        have hsne : s ≠ [] := hne s (List.mem_cons_self s rest)
        have hslen : s.length ≠ 0 := fun h0 => hsne (List.length_eq_zero.mp h0)
        have hsum2 : s.length + (rest.map List.length).sum = st.pending_bytes := by
          simpa using hsum
        simp only [read_payload_go, if_neg hp0, List.map_cons]
        by_cases hsn : s.length ≤ min st.pending_bytes NOISE_MAX_MESSAGE_LEN
        · have hsock : sockRead (SockEv.bytes s :: rest.map SockEv.bytes)
              (min st.pending_bytes NOISE_MAX_MESSAGE_LEN) =
              (ReadOutcome.ok s, rest.map SockEv.bytes) := by
            simp [sockRead, hn0, hsn]
          rw [hsock]
          simp only [if_neg hslen]
          rw [ih _ rest (fun t ht => hne t (List.mem_cons_of_mem s ht))
            (by simp only; omega) (by simp only; omega)]
          simp [List.append_assoc]
        · set n := min st.pending_bytes NOISE_MAX_MESSAGE_LEN with hn
          have hsock : sockRead (SockEv.bytes s :: rest.map SockEv.bytes) n =
              (ReadOutcome.ok (s.take n), SockEv.bytes (s.drop n) :: rest.map SockEv.bytes) := by
            simp [sockRead, hn0, hsn]
          rw [hsock]
          have htlen : (s.take n).length = n := by
            simp only [List.length_take]
            omega
          have hfalse : ¬ ((s.take n).length = 0) := by
            rw [htlen]
            exact hn0
          simp only [if_neg hfalse]
          have hne2 : ∀ t ∈ (s.drop n) :: rest, t ≠ [] := by
            intro t ht
            rcases List.mem_cons.mp ht with rfl | htr
            · intro hdrop0
              have hd := congrArg List.length hdrop0
              simp only [List.length_drop, List.length_nil] at hd
              exact hsn (by omega)
            · exact hne t (List.mem_cons_of_mem s htr)
          have hsum3 : (((s.drop n) :: rest).map List.length).sum =
              st.pending_bytes - (s.take n).length := by
            simp only [List.map_cons, List.sum_cons, List.length_drop, htlen]
            omega
          have hle3 : st.pending_bytes - (s.take n).length ≤ fuel := by
            rw [htlen]
            omega
          have hmap : (SockEv.bytes (s.drop n) :: rest.map SockEv.bytes) =
              ((s.drop n) :: rest).map SockEv.bytes := by
            simp
          rw [hmap, ih _ _ hne2 hsum3 hle3]
          simp only [List.flatten_cons]
          have hjoin : (st.message ++ s.take n) ++ (s.drop n ++ rest.flatten) =
              st.message ++ (s ++ rest.flatten) := by
            rw [List.append_assoc, ← List.append_assoc (s.take n), List.take_append_drop]
          rw [hjoin]

/-- `ConnectionLowLevel::encrypt` (`low_level.rs` lines 503-533): the sealed
chunks preceded by the single 4-byte big-endian header holding the total
ciphertext length. -/
def encrypt (input : List Nat) : List (List Nat) :=
  beBytes 4 ((encrypt_chunks input).flatten).length :: encrypt_chunks input

/-- C4: `encrypt` splits the plaintext into chunks of at most 65 519 bytes,
seals each into a wire chunk of at most 65 535 bytes, and prepends one
4-byte header whose big-endian value is the total ciphertext length; the
number of sealed chunks is the ceiling of the ciphertext length over
65 535; and decrypting the ciphertext restores the plaintext exactly, for
every way the ciphertext bytes are split across socket reads. -/
theorem c4_encrypt_decrypt_roundtrip (p : List Nat)
    (hp : p.length ≤ PROTOCOL_MAX_MESSAGE_SIZE) :
    encrypt p = beBytes 4 (((encrypt_chunks p).flatten).length) :: encrypt_chunks p ∧
    beOfBytes (beBytes 4 (((encrypt_chunks p).flatten).length)) =
      ((encrypt_chunks p).flatten).length ∧
    (∀ c ∈ encrypt_chunks p, ∃ q, q.length ≤ NOISE_MAX_PAYLOAD_LEN ∧ c = sealChunk q ∧
      c.length ≤ NOISE_MAX_MESSAGE_LEN) ∧
    (encrypt_chunks p).length =
      ((((encrypt_chunks p).flatten).length) + (NOISE_MAX_MESSAGE_LEN - 1)) /
        NOISE_MAX_MESSAGE_LEN ∧
    decryptBytes ((encrypt_chunks p).flatten) = some p ∧
    (∀ segs : List (List Nat), (∀ s ∈ segs, s ≠ []) →
      segs.flatten = (encrypt_chunks p).flatten →
      read_payload ⟨((encrypt_chunks p).flatten).length, []⟩ (segs.map SockEv.bytes) =
        (ReadRes.complete ((encrypt_chunks p).flatten), ⟨0, []⟩, [])) := by
  refine ⟨rfl, ?_, encrypt_chunks_shape p, encrypt_chunks_count p,
    decryptBytes_encrypt_chunks p, ?_⟩
  · have hb := encrypt_chunks_flatten_le p
    have h32 : (256 : Nat) ^ 4 = 4294967296 := by norm_num
    have hP : PROTOCOL_MAX_MESSAGE_SIZE = 268435456 := rfl
    have hM : MAC_LENGTH = 16 := rfl
    exact beOfBytes_beBytes 4 _ (by rw [h32]; rw [hP] at hp; rw [hM] at hb; omega)
  · intro segs hne hflat
    have hsum : (segs.map List.length).sum = ((encrypt_chunks p).flatten).length := by
      rw [← hflat]
      exact (List.length_flatten segs).symm
    have hgo := read_payload_go_assembles (((encrypt_chunks p).flatten).length)
      ⟨((encrypt_chunks p).flatten).length, []⟩ segs hne hsum le_rfl
    simp only [read_payload, hgo, List.nil_append, hflat]
    simp

/-- C4 witness: for the plaintext `[1, 2, 3]` the round trip restores the
payload, the chunk count matches the ceiling formula, and assembling the
ciphertext from a single socket read completes with the full frame body. -/
theorem c4_encrypt_decrypt_roundtrip_witness :
    decryptBytes ((encrypt_chunks [1, 2, 3]).flatten) = some [1, 2, 3] ∧
    (encrypt_chunks [1, 2, 3]).length =
      ((((encrypt_chunks [1, 2, 3]).flatten).length) + (NOISE_MAX_MESSAGE_LEN - 1)) /
        NOISE_MAX_MESSAGE_LEN ∧
    read_payload ⟨((encrypt_chunks [1, 2, 3]).flatten).length, []⟩
        ([sealChunk [1, 2, 3]].map SockEv.bytes) =
      (ReadRes.complete ((encrypt_chunks [1, 2, 3]).flatten), ⟨0, []⟩, []) := by
  have h := c4_encrypt_decrypt_roundtrip [1, 2, 3]
    (by rw [show PROTOCOL_MAX_MESSAGE_SIZE = 268435456 from rfl]; norm_num)
  have hchunks : encrypt_chunks [1, 2, 3] = [sealChunk [1, 2, 3]] := by
    rw [encrypt_chunks_eq, if_neg (by simp),
      List.take_of_length_le (by rw [NOISE_MAX_PAYLOAD_LEN_eq]; norm_num),
      List.drop_eq_nil_of_le (by rw [NOISE_MAX_PAYLOAD_LEN_eq]; norm_num), encrypt_chunks_nil]
  refine ⟨h.2.2.2.2.1, h.2.2.2.1, ?_⟩
  refine h.2.2.2.2.2 [sealChunk [1, 2, 3]] ?_ ?_
  · intro s hs
    rcases List.mem_singleton.mp hs with rfl
    simp [sealChunk]
  · rw [hchunks]

/-! ### The connection low level: writing (`flush_socket`, `partial_copy`) -/

/-- A queued output frame: the source's `Cursor<Vec<u8>>` — the frame bytes
and the position of the first unwritten byte. -/
structure Cursor where
  data : List Nat
  pos : Nat
deriving DecidableEq, Repr

/-- `create_frame` (`low_level.rs` lines 577-583): the data prefixed with
its length as a big-endian u32, wrapped in a fresh cursor. -/
def create_frame (data : List Nat) : Cursor :=
  { data := beBytes 4 data.length ++ data, pos := 0 }

/-- One event of the non-blocking write socket: `accept n` lets the next
`write` call take up to `n` bytes; `wouldBlock` refuses it. -/
inductive WriteEv where
  | accept (n : Nat)
  | wouldBlock
deriving DecidableEq, Repr

/-- The chunk size picked by each `partial_copy` iteration
(`low_level.rs` lines 549-552): at most `NOISE_MAX_MESSAGE_LEN`, at most
the remaining bytes of the cursor. -/
def chunkSizeAt (cur : Cursor) : Nat :=
  min NOISE_MAX_MESSAGE_LEN (cur.data.length - cur.pos)

/-- Embedding of the `partial_copy` helper (`low_level.rs` lines 539-574):
while the cursor has unwritten bytes, read a chunk of
`chunkSizeAt` bytes from it and write it to the socket; a short write
repositions the cursor at the first unwritten byte and continues; a
would-block restores the cursor to the chunk start and breaks.  Returns the
cursor, the rest of the socket schedule and the bytes actually written (the
source returns their count). -/
def partCopy : Cursor → List WriteEv → Cursor × List WriteEv × List Nat
  | cur, [] => (cur, [], [])
  | cur, WriteEv.wouldBlock :: rest =>
    if cur.pos = cur.data.length then (cur, WriteEv.wouldBlock :: rest, []) else (cur, rest, [])
  | cur, WriteEv.accept k :: rest =>
    if cur.pos = cur.data.length then (cur, WriteEv.accept k :: rest, [])
    else
      match partCopy { data := cur.data, pos := cur.pos + min k (chunkSizeAt cur) } rest with
      | (cur3, sched3, t3) =>
        (cur3, sched3,
          ((cur.data.drop cur.pos).take (chunkSizeAt cur)).take (min k (chunkSizeAt cur)) ++ t3)

/-- Result of `flush_socket`: `Complete` with the number of bytes written in
this call, or `Incomplete` when the front frame could not be fully
written. -/
inductive FlushRes where
  | complete (written : Nat)
  | incomplete
deriving DecidableEq, Repr

/-- The accounting step of `flush_socket` after a fully-written frame: add
this frame's written bytes to the running total and to the transcript. -/
def flushStep (t2 : List Nat) :
    FlushRes × List Cursor × List WriteEv × List Nat →
      FlushRes × List Cursor × List WriteEv × List Nat
  | (FlushRes.complete w, q3, sched3, t3) =>
    (FlushRes.complete (t2.length + w), q3, sched3, t2 ++ t3)
  | (FlushRes.incomplete, q3, sched3, t3) => (FlushRes.incomplete, q3, sched3, t2 ++ t3)

/-- Embedding of `ConnectionLowLevel::flush_socket` (`low_level.rs` lines
441-465): pop the front frame, copy as much as the socket takes; a fully
written frame is dropped and the loop continues, a partially written frame
is pushed back to the front and the call returns `Incomplete`.  Also
returns the final queue, the remaining schedule and the transcript of bytes
the peer received (the source counts them as `written_bytes`). -/
def flush_socket : List Cursor → List WriteEv →
    FlushRes × List Cursor × List WriteEv × List Nat
  | [], sched => (FlushRes.complete 0, [], sched, [])
  | msg :: rest, sched =>
    match partCopy msg sched with
    | (msg2, sched2, t2) =>
      if msg2.pos = msg2.data.length then flushStep t2 (flush_socket rest sched2)
      else (FlushRes.incomplete, msg2 :: rest, sched2, t2)

/-- The bytes of a queue that have not yet been written to the socket, in
FIFO order. -/
def remainingBytes (q : List Cursor) : List Nat :=
  (q.map (fun c => c.data.drop c.pos)).flatten

theorem remainingBytes_nil : remainingBytes [] = [] := rfl

theorem remainingBytes_cons (c : Cursor) (q : List Cursor) :
    remainingBytes (c :: q) = c.data.drop c.pos ++ remainingBytes q := by
  simp [remainingBytes]

theorem partCopy_spec :
    ∀ (sched : List WriteEv) (cur : Cursor), cur.pos ≤ cur.data.length →
      (partCopy cur sched).1.data = cur.data ∧
      cur.pos ≤ (partCopy cur sched).1.pos ∧
      (partCopy cur sched).1.pos ≤ cur.data.length ∧
      (partCopy cur sched).2.2 ++ cur.data.drop (partCopy cur sched).1.pos =
        cur.data.drop cur.pos := by
  intro sched
  induction sched with
  | nil =>
    intro cur h
    simp [partCopy, h]
  | cons ev rest ih =>
    intro cur h
    cases ev with
    | wouldBlock =>
      by_cases h0 : cur.pos = cur.data.length <;> simp [partCopy, h0, h]
    | accept k =>
      by_cases h0 : cur.pos = cur.data.length
      · simp [partCopy, h0, h]
      · have hcs : min k (chunkSizeAt cur) ≤ cur.data.length - cur.pos := by
          have hv : chunkSizeAt cur = min NOISE_MAX_MESSAGE_LEN (cur.data.length - cur.pos) :=
            rfl
          omega
        have h2 : cur.pos + min k (chunkSizeAt cur) ≤ cur.data.length := by omega
        obtain ⟨hdata, hpos1, hpos2, htr⟩ :=
          ih { data := cur.data, pos := cur.pos + min k (chunkSizeAt cur) } h2
        rcases hpc : partCopy { data := cur.data, pos := cur.pos + min k (chunkSizeAt cur) }
          rest with ⟨cur3, sched3, t3⟩
        rw [hpc] at hdata hpos1 hpos2 htr
        simp only at hdata hpos1 hpos2 htr
        simp only [partCopy, if_neg h0, hpc]
        refine ⟨hdata, by omega, by omega, ?_⟩
        have htake : ((cur.data.drop cur.pos).take (chunkSizeAt cur)).take
            (min k (chunkSizeAt cur)) = (cur.data.drop cur.pos).take (min k (chunkSizeAt cur)) := by
          rw [List.take_take]
          congr 1
          omega
        rw [htake, List.append_assoc, htr]
        have hdd : cur.data.drop (cur.pos + min k (chunkSizeAt cur)) =
            (cur.data.drop cur.pos).drop (min k (chunkSizeAt cur)) := by
          rw [List.drop_drop]
          try congr 1
          try omega
        rw [hdd, List.take_append_drop]

/-- C7: `flush_socket` writes queued frames in FIFO order.  For every queue
(with in-range cursors) and every socket schedule: the transcript the peer
received followed by the bytes still queued equals exactly the bytes that
were queued before the call (so a resumed flush continues at the first
unwritten byte and every frame reaches the peer intact and in submission
order); the final queue is a suffix of the original frames with only the
front cursor advanced; the result is `Incomplete` exactly when unwritten
bytes remain, and `Complete w` reports the transcript length with an empty
queue. -/
theorem c7_flush_socket_fifo :
    ∀ (queue : List Cursor) (sched : List WriteEv),
      (∀ c ∈ queue, c.pos ≤ c.data.length) →
      (flush_socket queue sched).2.2.2 ++ remainingBytes (flush_socket queue sched).2.1 =
        remainingBytes queue ∧
      ((flush_socket queue sched).2.1.map Cursor.data) <:+ (queue.map Cursor.data) ∧
      (∀ c ∈ (flush_socket queue sched).2.1, c.pos ≤ c.data.length) ∧
      ((flush_socket queue sched).1 = FlushRes.incomplete ↔
        remainingBytes (flush_socket queue sched).2.1 ≠ []) ∧
      (∀ w, (flush_socket queue sched).1 = FlushRes.complete w →
        (flush_socket queue sched).2.1 = [] ∧
          w = (flush_socket queue sched).2.2.2.length) := by
  intro queue
  induction queue with
  | nil =>
    intro sched hq
    have he : flush_socket [] sched = (FlushRes.complete 0, [], sched, []) := rfl
    rw [he]
    refine ⟨by simp [remainingBytes], by simp, by simp, by simp [remainingBytes], ?_⟩
    intro w hw
    cases hw
    exact ⟨rfl, rfl⟩
  | cons msg rest ih =>
    intro sched hq
    have hmsg : msg.pos ≤ msg.data.length := hq msg (List.mem_cons_self msg rest)
    rcases hpc : partCopy msg sched with ⟨msg2, sched2, t2⟩
    have hspec := partCopy_spec sched msg hmsg
    rw [hpc] at hspec
    obtain ⟨hdata, hpos1, hpos2, htr⟩ := hspec
    simp only at hdata hpos1 hpos2 htr
    by_cases hdone : msg2.pos = msg2.data.length
    · rcases hfl : flush_socket rest sched2 with ⟨res, q3, sched3, t3⟩
      have he : flush_socket (msg :: rest) sched = flushStep t2 (res, q3, sched3, t3) := by
        simp only [flush_socket, hpc, if_pos hdone, hfl]
      have IH := ih sched2 (fun c hc => hq c (List.mem_cons_of_mem _ hc))
      rw [hfl] at IH
      simp only at IH
      obtain ⟨iht, ihsfx, ihb, ihiff, ihc⟩ := IH
      have ht2 : t2 = msg.data.drop msg.pos := by
        have hdrop2 : msg2.data.drop msg2.pos = [] := by
          rw [hdone]
          simp
        rw [hdata] at hdrop2
        rw [hdrop2, List.append_nil] at htr
        exact htr
      cases res with
      | complete w =>
        obtain ⟨hq3, hw⟩ := ihc w rfl
        rw [he, flushStep]
        refine ⟨?_, ?_, ?_, ?_, ?_⟩
        · simp only
          rw [remainingBytes_cons, List.append_assoc, iht, ht2]
        · exact ihsfx.trans (List.suffix_cons _ _)
        · exact ihb
        · subst hq3
          simp [remainingBytes]
        · intro w0 hw0
          injection hw0 with hw0
          refine ⟨hq3, ?_⟩
          simp only [List.length_append]
          omega
      | incomplete =>
        rw [he, flushStep]
        refine ⟨?_, ?_, ?_, ?_, ?_⟩
        · simp only
          rw [remainingBytes_cons, List.append_assoc, iht, ht2]
        · exact ihsfx.trans (List.suffix_cons _ _)
        · exact ihb
        · simpa using ihiff
        · intro w0 hw0
          exact absurd hw0 (by simp)
    · have he : flush_socket (msg :: rest) sched =
          (FlushRes.incomplete, msg2 :: rest, sched2, t2) := by
        simp only [flush_socket, hpc, if_neg hdone]
      rw [he]
      refine ⟨?_, ?_, ?_, ?_, ?_⟩
      · simp only
        rw [remainingBytes_cons, remainingBytes_cons, ← List.append_assoc, hdata, htr]
      · simp only [List.map_cons, hdata]
        exact List.suffix_refl _
      · intro c hc
        rcases List.mem_cons.mp hc with rfl | hcr
        · rw [hdata]
          exact hpos2
        · exact hq c (List.mem_cons_of_mem _ hcr)
      · constructor
        · intro _
          rw [remainingBytes_cons]
          intro habs
          have h1 : msg2.data.drop msg2.pos = [] := (List.append_eq_nil.mp habs).1
          have hle : msg2.data.length ≤ msg2.pos := List.drop_eq_nil_iff.mp h1
          have hp2 : msg2.pos ≤ msg2.data.length := by
            rw [hdata]
            exact hpos2
          exact hdone (le_antisymm hp2 hle)
        · intro _
          rfl
      · intro w hw
        exact absurd hw (by simp)

/-- C7 witness: flushing a single 10-byte frame against a socket that
accepts 3 bytes and then blocks: the transcript plus the requeued bytes
reconstruct the frame, and the result is `Incomplete` with bytes
remaining. -/
theorem c7_flush_socket_fifo_witness :
    ((flush_socket [⟨[1, 2, 3, 4, 5, 6, 7, 8, 9, 10], 0⟩]
        [WriteEv.accept 3, WriteEv.wouldBlock]).2.2.2 ++
      remainingBytes (flush_socket [⟨[1, 2, 3, 4, 5, 6, 7, 8, 9, 10], 0⟩]
        [WriteEv.accept 3, WriteEv.wouldBlock]).2.1 =
      remainingBytes [⟨[1, 2, 3, 4, 5, 6, 7, 8, 9, 10], 0⟩]) ∧
    ((flush_socket [⟨[1, 2, 3, 4, 5, 6, 7, 8, 9, 10], 0⟩]
        [WriteEv.accept 3, WriteEv.wouldBlock]).1 = FlushRes.incomplete ↔
      remainingBytes (flush_socket [⟨[1, 2, 3, 4, 5, 6, 7, 8, 9, 10], 0⟩]
        [WriteEv.accept 3, WriteEv.wouldBlock]).2.1 ≠ []) := by
  have h := c7_flush_socket_fifo [⟨[1, 2, 3, 4, 5, 6, 7, 8, 9, 10], 0⟩]
    [WriteEv.accept 3, WriteEv.wouldBlock] (by decide)
  exact ⟨h.1, h.2.2.2.1⟩

/-! ### The connection low level: `read_from_socket` and the Noise session -/

/-- The view of the `noiseexplorer_xx` `NoiseSession` used by the source:
its message count and role.  Modelled from the source's own use of the
external crate: the count starts at 0 and increases by one on every
`send_message` and every `recv_message` (this is pinned down by the
dispatch conditions in `ConnectionLowLevel::forward`, which expect the
responder to see frame A at count 0 and frame C at count 2, and the
initiator to see frame B at count 1). -/
structure NoiseSession where
  mc : Nat
  is_initiator : Bool
deriving DecidableEq, Repr

/-- A `send_message` call on the session (count + 1). -/
def noise_send (s : NoiseSession) : NoiseSession := { s with mc := s.mc + 1 }

/-- A `recv_message` call on the session (count + 1). -/
def noise_recv (s : NoiseSession) : NoiseSession := { s with mc := s.mc + 1 }

/-- `ConnectionLowLevel::is_post_handshake` (`low_level.rs` lines 157-163). -/
def is_post_handshake (s : NoiseSession) : Bool :=
  if s.is_initiator then decide (s.mc > 1) else decide (s.mc > 2)

/-- `DHLEN` from `noiseexplorer_xx::consts` (Curve25519 key size). -/
def DHLEN : Nat := 32

/-- The state of `ConnectionLowLevel` (`low_level.rs` lines 57-65) relevant
to reading and writing: the Noise session, the partially-read incoming
message, and the output queue. -/
structure ConnectionLowLevel where
  noise_session : NoiseSession
  incoming_msg : IncomingMessage
  output_queue : List Cursor
deriving DecidableEq, Repr

/-- Modelled from the spec: the bytes of Noise handshake message B
(`DHLEN * 2 + MAC_LENGTH * 2` as allocated in `low_level.rs` line 121); the
contents are produced by the external Noise library and do not affect the
reader's classification. -/
def msg_b_bytes : List Nat := List.replicate (DHLEN * 2 + MAC_LENGTH * 2) 0

/-- Modelled from the spec: the bytes of Noise handshake message C
(`DHLEN + MAC_LENGTH * 2`, `low_level.rs` line 136). -/
def msg_c_bytes : List Nat := List.replicate (DHLEN + MAC_LENGTH * 2) 0

/-- `ConnectionLowLevel::responder_got_message_a` (`low_level.rs` lines
114-127): receive frame A, send frame B (framed) — two session bumps. -/
def responder_got_message_a (st : ConnectionLowLevel) : ConnectionLowLevel :=
  { st with
    noise_session := noise_send (noise_recv st.noise_session),
    output_queue := st.output_queue ++ [create_frame msg_b_bytes] }

/-- `ConnectionLowLevel::initiator_got_message_b` (`low_level.rs` lines
129-142): receive frame B, send frame C — two session bumps. -/
def initiator_got_message_b (st : ConnectionLowLevel) : ConnectionLowLevel :=
  { st with
    noise_session := noise_send (noise_recv st.noise_session),
    output_queue := st.output_queue ++ [create_frame msg_c_bytes] }

/-- `ConnectionLowLevel::write_to_socket` (`low_level.rs` lines 419-439):
encrypt the input and push the header cursor and each sealed-chunk cursor
onto the output queue; each sealed chunk is one `send_message` on the
session. -/
def write_to_socket (st : ConnectionLowLevel) (input : List Nat) : ConnectionLowLevel :=
  { st with
    noise_session := { st.noise_session with
      mc := st.noise_session.mc + (encrypt_chunks input).length },
    output_queue := st.output_queue ++
      (Cursor.mk (beBytes 4 ((encrypt_chunks input).flatten).length) 0 ::
        (encrypt_chunks input).map (fun c => Cursor.mk c 0)) }

/-- Modelled from the spec: the serialized application-level handshake
request sent by `Connection::send_handshake_request` (missing from `src/`);
it is nonempty and far below one chunk, so it costs exactly one
`send_message`. -/
def handshake_request_payload : List Nat := List.replicate 32 1

/-- `ConnectionLowLevel::responder_got_message_c` (`low_level.rs` lines
144-155): receive frame C, then send the high-level handshake request. -/
def responder_got_message_c (st : ConnectionLowLevel) : ConnectionLowLevel :=
  write_to_socket { st with noise_session := noise_recv st.noise_session }
    handshake_request_payload

/-- The fatal reader errors: `MessageTooBigError` and a failed chunk
decryption. -/
inductive NetErr where
  | messageTooBig (expected : Nat)
  | decryptFail
deriving DecidableEq, Repr

/-- The number of `recv_message` calls `decrypt` performs on a ciphertext of
`len` bytes (`low_level.rs` lines 347-350). -/
def numRecvChunks (len : Nat) : Nat :=
  len / NOISE_MAX_MESSAGE_LEN + (if len % NOISE_MAX_MESSAGE_LEN = 0 then 0 else 1)

/-- `ConnectionLowLevel::decrypt` in context (`low_level.rs` lines 345-378):
decrypt the chunks and store the plaintext as the incoming message. -/
def decrypt_ll (st : ConnectionLowLevel) (input : List Nat) (len : Nat) :
    Except NetErr ConnectionLowLevel :=
  match decryptBytes input with
  | none => Except.error NetErr.decryptFail
  | some plain =>
    Except.ok { st with
      noise_session := { st.noise_session with
        mc := st.noise_session.mc + numRecvChunks len },
      incoming_msg := { pending_bytes := st.incoming_msg.pending_bytes, message := plain } }

/-- `ConnectionLowLevel::forward` (`low_level.rs` lines 232-239): dispatch a
fully-read frame on the session's message count and role. -/
def forward (st : ConnectionLowLevel) (input : List Nat) (len : Nat) :
    Except NetErr ConnectionLowLevel :=
  if st.noise_session.mc = 0 ∧ st.noise_session.is_initiator = false then
    Except.ok (responder_got_message_a st)
  else if st.noise_session.mc = 1 ∧ st.noise_session.is_initiator = true then
    Except.ok (initiator_got_message_b st)
  else if st.noise_session.mc = 2 ∧ st.noise_session.is_initiator = false then
    Except.ok (responder_got_message_c st)
  else decrypt_ll st input len

/-- `TcpResult` for reads (`low_level.rs` lines 35-47). -/
inductive TcpRead where
  | complete (payload : List Nat)
  | incomplete
  | discarded
  | aborted
deriving DecidableEq, Repr

/-- `ConnectionLowLevel::read_from_socket` (`low_level.rs` lines 186-230):
read the length prefix or the payload; on a fully assembled frame, forward
it, then return `Complete` with the (decrypted) buffer when the session is
post-handshake after forwarding, `Discarded` otherwise; a would-block
failure from the prefix read surfaces as `Aborted`. -/
def read_from_socket (st : ConnectionLowLevel) (sock : List SockEv) :
    Except NetErr (TcpRead × ConnectionLowLevel × List SockEv) :=
  match (if st.incoming_msg.pending_bytes = 0
      then read_expected_size st.incoming_msg sock
      else read_payload st.incoming_msg sock) with
  | (ReadRes.blocked, st2, sock2) =>
    Except.ok (TcpRead.aborted, { st with incoming_msg := st2 }, sock2)
  | (ReadRes.tooBig n, _, _) => Except.error (NetErr.messageTooBig n)
  | (ReadRes.incomplete, st2, sock2) =>
    Except.ok (TcpRead.incomplete, { st with incoming_msg := st2 }, sock2)
  | (ReadRes.complete payload, st2, sock2) =>
    match forward { st with incoming_msg := st2 } payload payload.length with
    | Except.error e => Except.error e
    | Except.ok st3 =>
      if is_post_handshake st3.noise_session then
        Except.ok (TcpRead.complete st3.incoming_msg.message,
          { st3 with incoming_msg :=
            { pending_bytes := st3.incoming_msg.pending_bytes, message := [] } }, sock2)
      else Except.ok (TcpRead.discarded, st3, sock2)

/-- A complete frame (4-byte prefix plus body) delivered in one socket
event is fully assembled by `read_expected_size`. -/
theorem read_expected_size_full_frame (body : List Nat) (h1 : 1 ≤ body.length)
    (h2 : body.length ≤ NOISE_MAX_MESSAGE_LEN) :
    read_expected_size ⟨0, []⟩ [SockEv.bytes (beBytes 4 body.length ++ body)] =
      (ReadRes.complete body, ⟨0, []⟩, []) := by
  have hlen4 : (beBytes 4 body.length).length = 4 := beBytes_length 4 body.length
  have hb32 : body.length < 256 ^ 4 := by
    have h4 : (256 : Nat) ^ 4 = 4294967296 := by norm_num
    rw [h4]
    rw [NOISE_MAX_MESSAGE_LEN_eq] at h2
    omega
  have hgt : ¬ ((beBytes 4 body.length ++ body).length ≤ 4) := by
    rw [List.length_append, hlen4]
    omega
  have hsock : sockRead [SockEv.bytes (beBytes 4 body.length ++ body)] 4 =
      (ReadOutcome.ok (beBytes 4 body.length), [SockEv.bytes body]) := by
    simp [sockRead, hgt, List.take_left' hlen4, List.drop_left' hlen4]
    omega
  have hmin : pending_bytes_to_know_expected_size ⟨0, []⟩ = 4 := rfl
  have hle : ¬ (PROTOCOL_MAX_MESSAGE_SIZE < body.length) := by
    rw [NOISE_MAX_MESSAGE_LEN_eq] at h2
    rw [show PROTOCOL_MAX_MESSAGE_SIZE = 268435456 from rfl]
    omega
  have hrp : read_payload ⟨body.length, []⟩ [SockEv.bytes body] =
      (ReadRes.complete body, ⟨0, []⟩, []) := by
    have hgo := read_payload_go_assembles body.length ⟨body.length, []⟩ [body]
      (by
        intro s hs
        rw [List.mem_singleton] at hs
        subst hs
        exact List.length_pos.mp h1)
      (by simp) le_rfl
    simp only [List.map_cons, List.map_nil] at hgo
    simp only [read_payload, hgo]
    simp
  simp only [read_expected_size, hmin, hsock, List.nil_append, hlen4,
    beOfBytes_beBytes 4 body.length hb32, if_neg hle, hrp]
  simp

/-- Bumping the session count preserves the post-handshake predicate. -/
theorem is_post_handshake_add (s : NoiseSession) (k : Nat)
    (h : is_post_handshake s = true) :
    is_post_handshake { s with mc := s.mc + k } = true := by
  rcases s with ⟨mc, init⟩
  cases init <;> simp [is_post_handshake] at h ⊢ <;> omega

theorem encrypt_chunks_handshake_request :
    encrypt_chunks handshake_request_payload = [sealChunk handshake_request_payload] := by
  rw [encrypt_chunks_eq, if_neg (by simp [handshake_request_payload]),
    List.take_of_length_le (by simp [handshake_request_payload, NOISE_MAX_PAYLOAD_LEN_eq]),
    List.drop_eq_nil_of_le (by simp [handshake_request_payload, NOISE_MAX_PAYLOAD_LEN_eq]),
    encrypt_chunks_nil]

/-- Receipt of handshake frame A by the responder: `Discarded`, count 2. -/
theorem read_frameA_responder (st : ConnectionLowLevel) (body : List Nat)
    (hs : st.noise_session = ⟨0, false⟩) (hin : st.incoming_msg = ⟨0, []⟩)
    (h1 : 1 ≤ body.length) (h2 : body.length ≤ NOISE_MAX_MESSAGE_LEN) :
    read_from_socket st [SockEv.bytes (beBytes 4 body.length ++ body)] =
      Except.ok (TcpRead.discarded,
        responder_got_message_a { st with incoming_msg := ⟨0, []⟩ }, []) ∧
    (responder_got_message_a { st with incoming_msg := ⟨0, []⟩ }).noise_session.mc = 2 := by
  have hframe := read_expected_size_full_frame body h1 h2
  have hfwd : forward { st with incoming_msg := (⟨0, []⟩ : IncomingMessage) } body
      body.length = Except.ok (responder_got_message_a { st with incoming_msg := ⟨0, []⟩ }) := by
    simp [forward, hs]
  have hpost : is_post_handshake (responder_got_message_a
      { st with incoming_msg := (⟨0, []⟩ : IncomingMessage) }).noise_session = false := by
    simp [responder_got_message_a, noise_send, noise_recv, hs, is_post_handshake]
  constructor
  · simp only [read_from_socket, hin, hframe, if_true]
    rw [hfwd]
    simp [hpost]
  · simp [responder_got_message_a, noise_send, noise_recv, hs]

/-- Receipt of handshake frame B by the initiator: `Complete []`, count 3. -/
theorem read_frameB_initiator (st : ConnectionLowLevel) (body : List Nat)
    (hs : st.noise_session = ⟨1, true⟩) (hin : st.incoming_msg = ⟨0, []⟩)
    (h1 : 1 ≤ body.length) (h2 : body.length ≤ NOISE_MAX_MESSAGE_LEN) :
    read_from_socket st [SockEv.bytes (beBytes 4 body.length ++ body)] =
      Except.ok (TcpRead.complete [],
        initiator_got_message_b { st with incoming_msg := ⟨0, []⟩ }, []) ∧
    (initiator_got_message_b { st with incoming_msg := ⟨0, []⟩ }).noise_session.mc = 3 := by
  have hframe := read_expected_size_full_frame body h1 h2
  have hfwd : forward { st with incoming_msg := (⟨0, []⟩ : IncomingMessage) } body
      body.length = Except.ok (initiator_got_message_b { st with incoming_msg := ⟨0, []⟩ }) := by
    simp [forward, hs]
  constructor
  · simp only [read_from_socket, hin, hframe, if_true]
    rw [hfwd]
    simp [initiator_got_message_b, noise_send, noise_recv, hs, is_post_handshake]
  · simp [initiator_got_message_b, noise_send, noise_recv, hs]

/-- Receipt of handshake frame C by the responder: `Complete []`, count 4. -/
theorem read_frameC_responder (st : ConnectionLowLevel) (body : List Nat)
    (hs : st.noise_session = ⟨2, false⟩) (hin : st.incoming_msg = ⟨0, []⟩)
    (h1 : 1 ≤ body.length) (h2 : body.length ≤ NOISE_MAX_MESSAGE_LEN) :
    read_from_socket st [SockEv.bytes (beBytes 4 body.length ++ body)] =
      Except.ok (TcpRead.complete [],
        responder_got_message_c { st with incoming_msg := ⟨0, []⟩ }, []) ∧
    (responder_got_message_c { st with incoming_msg := ⟨0, []⟩ }).noise_session.mc = 4 := by
  have hframe := read_expected_size_full_frame body h1 h2
  have hfwd : forward { st with incoming_msg := (⟨0, []⟩ : IncomingMessage) } body
      body.length = Except.ok (responder_got_message_c { st with incoming_msg := ⟨0, []⟩ }) := by
    simp [forward, hs]
  have hmc : (responder_got_message_c
      { st with incoming_msg := (⟨0, []⟩ : IncomingMessage) }).noise_session.mc = 4 := by
    simp [responder_got_message_c, write_to_socket, noise_recv, hs,
      encrypt_chunks_handshake_request]
  constructor
  · simp only [read_from_socket, hin, hframe, if_true]
    rw [hfwd]
    simp [responder_got_message_c, write_to_socket, noise_recv, hs, is_post_handshake,
      encrypt_chunks_handshake_request]
  · exact hmc

/-- Decrypting one sealed chunk below the wire-chunk limit restores the
plaintext. -/
theorem decryptBytes_sealChunk (p : List Nat) (h1 : 1 ≤ p.length)
    (h2 : p.length ≤ NOISE_MAX_PAYLOAD_LEN) :
    decryptBytes (sealChunk p) = some p := by
  have hpne : p ≠ [] := List.length_pos.mp h1
  have hch : encrypt_chunks p = [sealChunk p] := by
    rw [encrypt_chunks_eq, if_neg hpne, List.take_of_length_le h2,
      List.drop_eq_nil_of_le h2, encrypt_chunks_nil]
  have h0 := decryptBytes_encrypt_chunks p
  rw [hch] at h0
  simpa using h0

/-- A post-handshake session dispatches to `decrypt`, never to a handshake
handler. -/
theorem post_handshake_no_dispatch (s : NoiseSession) (h : is_post_handshake s = true) :
    ¬ (s.mc = 0 ∧ s.is_initiator = false) ∧ ¬ (s.mc = 1 ∧ s.is_initiator = true) ∧
    ¬ (s.mc = 2 ∧ s.is_initiator = false) := by
  rcases s with ⟨mc, init⟩
  cases init <;> simp [is_post_handshake] at h ⊢ <;> omega

/-- Receipt of a single-chunk transport frame by a post-handshake session:
`Complete` with the decrypted payload. -/
theorem read_posthandshake_frame (st : ConnectionLowLevel) (p : List Nat)
    (hpost : is_post_handshake st.noise_session = true)
    (hin : st.incoming_msg = ⟨0, []⟩)
    (h1 : 1 ≤ p.length) (h2 : p.length ≤ NOISE_MAX_PAYLOAD_LEN) :
    read_from_socket st [SockEv.bytes (beBytes 4 (sealChunk p).length ++ sealChunk p)] =
      Except.ok (TcpRead.complete p,
        { st with
          noise_session := { st.noise_session with
            mc := st.noise_session.mc + numRecvChunks (sealChunk p).length },
          incoming_msg := ⟨0, []⟩ }, []) := by
  have hlen1 : 1 ≤ (sealChunk p).length := by
    rw [sealChunk_length]
    omega
  have hlen2 : (sealChunk p).length ≤ NOISE_MAX_MESSAGE_LEN := by
    rw [sealChunk_length, NOISE_MAX_MESSAGE_LEN_eq, show MAC_LENGTH = 16 from rfl]
    rw [NOISE_MAX_PAYLOAD_LEN_eq] at h2
    omega
  have hframe := read_expected_size_full_frame (sealChunk p) hlen1 hlen2
  obtain ⟨hno1, hno2, hno3⟩ := post_handshake_no_dispatch st.noise_session hpost
  have hdec := decryptBytes_sealChunk p h1 h2
  have hfwd : forward { st with incoming_msg := (⟨0, []⟩ : IncomingMessage) } (sealChunk p)
      (sealChunk p).length = Except.ok
        { st with
          noise_session := { st.noise_session with
            mc := st.noise_session.mc + numRecvChunks (sealChunk p).length },
          incoming_msg := { pending_bytes := 0, message := p } } := by
    simp [forward, hno1, hno2, hno3, decrypt_ll, hdec]
  have hpost2 : is_post_handshake { st.noise_session with
      mc := st.noise_session.mc + numRecvChunks (sealChunk p).length } = true :=
    is_post_handshake_add st.noise_session _ hpost
  simp only [read_from_socket, hin, hframe, if_true]
  rw [hfwd]
  simp [hpost2]

/-- C5 counterexample: the responder's receipt of Noise handshake frame C —
consumed internally while the session is not yet post-handshake
(responder count 2, and `count > 2` fails) — is **not** returned as
`Discarded`: `read_from_socket` returns `Complete` with an empty buffer,
because `is_post_handshake` is only consulted after the frame has been
processed (which bumps the count to 4). -/
theorem c5_frameC_not_discarded_counterexample :
    is_post_handshake ⟨2, false⟩ = false ∧
    read_from_socket ⟨⟨2, false⟩, ⟨0, []⟩, []⟩
        [SockEv.bytes (beBytes 4 msg_c_bytes.length ++ msg_c_bytes)] =
      Except.ok (TcpRead.complete [],
        responder_got_message_c ⟨⟨2, false⟩, ⟨0, []⟩, []⟩, []) ∧
    TcpRead.complete [] ≠ TcpRead.discarded := by
  have h := read_frameC_responder ⟨⟨2, false⟩, ⟨0, []⟩, []⟩ msg_c_bytes rfl rfl
    (by norm_num [msg_c_bytes, DHLEN, MAC_LENGTH])
    (by norm_num [msg_c_bytes, DHLEN, MAC_LENGTH, NOISE_MAX_MESSAGE_LEN])
  exact ⟨rfl, h.1, by simp⟩

/-- C5 (amended): each successful `read_from_socket` call is classified as
follows.  `Aborted` is returned when the socket would block while the
4-byte length prefix is being read; a would-block while the payload is
being read yields `Incomplete` instead.  After a frame is fully assembled
it is forwarded, and `Discarded` is returned exactly when the session is
not post-handshake *after* processing: that is only the responder's receipt
of handshake frame A; the initiator's receipt of frame B and the
responder's receipt of frame C leave the session post-handshake and return
`Complete` with an **empty** buffer; a genuine post-handshake frame returns
`Complete` with the decrypted payload. -/
theorem c5_read_from_socket_amended :
    (∀ (st : ConnectionLowLevel) (rest : List SockEv),
      st.incoming_msg.pending_bytes = 0 → st.incoming_msg.message.length < 4 →
      read_from_socket st (SockEv.wouldBlock :: rest) =
        Except.ok (TcpRead.aborted, st, rest)) ∧
    (∀ (st : ConnectionLowLevel) (rest : List SockEv),
      0 < st.incoming_msg.pending_bytes →
      read_from_socket st (SockEv.wouldBlock :: rest) =
        Except.ok (TcpRead.incomplete, st, rest)) ∧
    (∀ (st : ConnectionLowLevel) (body : List Nat),
      st.noise_session = ⟨0, false⟩ → st.incoming_msg = ⟨0, []⟩ →
      1 ≤ body.length → body.length ≤ NOISE_MAX_MESSAGE_LEN →
      read_from_socket st [SockEv.bytes (beBytes 4 body.length ++ body)] =
        Except.ok (TcpRead.discarded, responder_got_message_a st, []) ∧
      (responder_got_message_a st).noise_session.mc = 2) ∧
    (∀ (st : ConnectionLowLevel) (body : List Nat),
      st.noise_session = ⟨1, true⟩ → st.incoming_msg = ⟨0, []⟩ →
      1 ≤ body.length → body.length ≤ NOISE_MAX_MESSAGE_LEN →
      read_from_socket st [SockEv.bytes (beBytes 4 body.length ++ body)] =
        Except.ok (TcpRead.complete [], initiator_got_message_b st, []) ∧
      (initiator_got_message_b st).noise_session.mc = 3) ∧
    (∀ (st : ConnectionLowLevel) (body : List Nat),
      st.noise_session = ⟨2, false⟩ → st.incoming_msg = ⟨0, []⟩ →
      1 ≤ body.length → body.length ≤ NOISE_MAX_MESSAGE_LEN →
      read_from_socket st [SockEv.bytes (beBytes 4 body.length ++ body)] =
        Except.ok (TcpRead.complete [], responder_got_message_c st, []) ∧
      (responder_got_message_c st).noise_session.mc = 4) ∧
    (∀ (st : ConnectionLowLevel) (p : List Nat),
      is_post_handshake st.noise_session = true → st.incoming_msg = ⟨0, []⟩ →
      1 ≤ p.length → p.length ≤ NOISE_MAX_PAYLOAD_LEN →
      read_from_socket st [SockEv.bytes (beBytes 4 (sealChunk p).length ++ sealChunk p)] =
        Except.ok (TcpRead.complete p,
          { st with
            noise_session := { st.noise_session with
              mc := st.noise_session.mc + numRecvChunks (sealChunk p).length },
            incoming_msg := ⟨0, []⟩ }, [])) := by
  refine ⟨?_, ?_, ?_, ?_, ?_, ?_⟩
  · intro st rest hp hlen
    have hmb : pending_bytes_to_know_expected_size st.incoming_msg =
        4 - st.incoming_msg.message.length := by
      simp [pending_bytes_to_know_expected_size, hlen]
    have hmb0 : ¬ (4 - st.incoming_msg.message.length = 0) := by omega
    have hsock : sockRead (SockEv.wouldBlock :: rest) (4 - st.incoming_msg.message.length) =
        (ReadOutcome.wouldBlock, rest) := by
      simp [sockRead, hmb0]
    have hres : read_expected_size st.incoming_msg (SockEv.wouldBlock :: rest) =
        (ReadRes.blocked, st.incoming_msg, rest) := by
      simp only [read_expected_size, hmb, hsock]
    simp [read_from_socket, hp, hres]
  · intro st rest hp
    rcases st with ⟨sess, ⟨pb, msg⟩, oq⟩
    simp only at hp
    obtain ⟨k, rfl⟩ : ∃ k, pb = k + 1 := ⟨pb - 1, by omega⟩
    have hmin0 : ¬ (min (k + 1) NOISE_MAX_MESSAGE_LEN = 0) := by
      rw [NOISE_MAX_MESSAGE_LEN_eq]
      omega
    have hgo : read_payload_go (k + 1) ⟨k + 1, msg⟩ (SockEv.wouldBlock :: rest) =
        (⟨k + 1, msg⟩, rest) := by
      simp [read_payload_go, sockRead, hmin0]
    have hrp : read_payload ⟨k + 1, msg⟩ (SockEv.wouldBlock :: rest) =
        (ReadRes.incomplete, ⟨k + 1, msg⟩, rest) := by
      simp [read_payload, hgo]
    simp [read_from_socket, hrp]
  · intro st body hs hin h1 h2
    have hst : ({ st with incoming_msg := (⟨0, []⟩ : IncomingMessage) }) = st := by
      rw [← hin]
    have h := read_frameA_responder st body hs hin h1 h2
    rw [hst] at h
    exact h
  · intro st body hs hin h1 h2
    have hst : ({ st with incoming_msg := (⟨0, []⟩ : IncomingMessage) }) = st := by
      rw [← hin]
    have h := read_frameB_initiator st body hs hin h1 h2
    rw [hst] at h
    exact h
  · intro st body hs hin h1 h2
    have hst : ({ st with incoming_msg := (⟨0, []⟩ : IncomingMessage) }) = st := by
      rw [← hin]
    have h := read_frameC_responder st body hs hin h1 h2
    rw [hst] at h
    exact h
  · intro st p hpost hin h1 h2
    exact read_posthandshake_frame st p hpost hin h1 h2

/-- C5 witness: all six classifications at concrete states — a blocked
prefix read aborts, a blocked payload read is incomplete, frame A at the
responder is discarded, frames B and C complete with an empty buffer, and a
post-handshake frame completes with its payload. -/
theorem c5_read_from_socket_amended_witness :
    read_from_socket ⟨⟨3, true⟩, ⟨0, []⟩, []⟩ (SockEv.wouldBlock :: []) =
      Except.ok (TcpRead.aborted, ⟨⟨3, true⟩, ⟨0, []⟩, []⟩, []) ∧
    read_from_socket ⟨⟨3, true⟩, ⟨5, [1]⟩, []⟩ (SockEv.wouldBlock :: []) =
      Except.ok (TcpRead.incomplete, ⟨⟨3, true⟩, ⟨5, [1]⟩, []⟩, []) ∧
    read_from_socket ⟨⟨0, false⟩, ⟨0, []⟩, []⟩
        [SockEv.bytes (beBytes 4 ([7] : List Nat).length ++ [7])] =
      Except.ok (TcpRead.discarded, responder_got_message_a ⟨⟨0, false⟩, ⟨0, []⟩, []⟩, []) ∧
    read_from_socket ⟨⟨1, true⟩, ⟨0, []⟩, []⟩
        [SockEv.bytes (beBytes 4 ([7] : List Nat).length ++ [7])] =
      Except.ok (TcpRead.complete [], initiator_got_message_b ⟨⟨1, true⟩, ⟨0, []⟩, []⟩, []) ∧
    read_from_socket ⟨⟨2, false⟩, ⟨0, []⟩, []⟩
        [SockEv.bytes (beBytes 4 ([7] : List Nat).length ++ [7])] =
      Except.ok (TcpRead.complete [], responder_got_message_c ⟨⟨2, false⟩, ⟨0, []⟩, []⟩, []) ∧
    read_from_socket ⟨⟨5, true⟩, ⟨0, []⟩, []⟩
        [SockEv.bytes (beBytes 4 (sealChunk [9]).length ++ sealChunk [9])] =
      Except.ok (TcpRead.complete [9],
        ⟨⟨5 + numRecvChunks (sealChunk [9]).length, true⟩, ⟨0, []⟩, []⟩, []) := by
  refine ⟨?_, ?_, ?_, ?_, ?_, ?_⟩
  · exact c5_read_from_socket_amended.1 ⟨⟨3, true⟩, ⟨0, []⟩, []⟩ [] rfl (by decide)
  · exact c5_read_from_socket_amended.2.1 ⟨⟨3, true⟩, ⟨5, [1]⟩, []⟩ [] (by decide)
  · exact (c5_read_from_socket_amended.2.2.1 ⟨⟨0, false⟩, ⟨0, []⟩, []⟩ [7] rfl rfl
      (by decide) (by decide)).1
  · exact (c5_read_from_socket_amended.2.2.2.1 ⟨⟨1, true⟩, ⟨0, []⟩, []⟩ [7] rfl rfl
      (by decide) (by decide)).1
  · exact (c5_read_from_socket_amended.2.2.2.2.1 ⟨⟨2, false⟩, ⟨0, []⟩, []⟩ [7] rfl rfl
      (by decide) (by decide)).1
  · exact c5_read_from_socket_amended.2.2.2.2.2 ⟨⟨5, true⟩, ⟨0, []⟩, []⟩ [9] rfl rfl
      (by decide) (by decide)

end CNode
